import Mathlib

/-!
Verification of the T64 container model and its verify/repair/create
algorithms, a shallow embedding of `t64.c` / `t64.h` / `base.c` from the
t64fix repository.  Machine integers are modelled as `Nat` with explicit
reduction modulo `2 ^ w` exactly where the C code performs width-limited
arithmetic (integer promotion, casts to `size_t` / `uint16_t`).  Byte
buffers are `List Nat`; out-of-bounds reads, which are undefined behaviour
in the C code, are modelled as reading 0 via `List.getD`.
-/

/-- Wrap-around modulus of C `size_t` arithmetic (64-bit). -/
def U64 : Nat := 2 ^ 64

/-- Wrap-around modulus of C `unsigned short` / `uint16_t` arithmetic. -/
def U16 : Nat := 2 ^ 16

/-- Status of a t64 file record (`t64_status_t` in t64.h):
`T64_REC_OK`, `T64_REC_FIXED`, `T64_REC_SKIPPED`. -/
inductive t64_status_t where
  | ok
  | fixed
  | skipped
deriving DecidableEq

/-- A t64 file record (`t64_record_t` in t64.h).  `filename` holds the 16
PETSCII bytes; `offset` is the container data offset (C `unsigned long`);
the address fields are 16-bit values; `index` is the record's position in
the directory, used to restore parse order after the offset sort. -/
structure t64_record_t where
  filename : List Nat
  offset : Nat
  start_addr : Nat
  end_addr : Nat
  real_end_addr : Nat
  c64s_ftype : Nat
  c1541_ftype : Nat
  index : Nat
  status : t64_status_t
deriving DecidableEq

/-- A t64 container (`t64_image_t` in t64.h).  `data` is the raw file
buffer, `size` its length, `fixes` the running fix counter.  The `path`
field of the C struct is file-system state and is not modelled. -/
structure t64_image_t where
  magic : List Nat
  tapename : List Nat
  data : List Nat
  size : Nat
  records : List t64_record_t
  rec_max : Nat
  rec_used : Nat
  version : Nat
  fixes : Nat
deriving DecidableEq

/-- `get_uint16` from base.c: `p[0] + (1 << 8) * p[1]`. -/
def get_uint16 (buf : List Nat) (off : Nat) : Nat :=
  buf.getD off 0 + 256 * buf.getD (off + 1) 0

/-- `get_uint32` from base.c: little-endian 32-bit read. -/
def get_uint32 (buf : List Nat) (off : Nat) : Nat :=
  get_uint16 buf off + 65536 * buf.getD (off + 2) 0 + 16777216 * buf.getD (off + 3) 0

/-- The canonical magic `"C64S tape image file"` (`c64s_magic` in t64.c) as
its 20 ASCII character codes; the C `char[32]` array pads it with 12 zero
bytes, see `c64s_magic_padded`. -/
def c64s_magic : List Nat :=
  [67, 54, 52, 83, 32, 116, 97, 112, 101, 32, 105, 109, 97, 103, 101, 32, 102, 105, 108, 101]

/-- The full 32-byte `c64s_magic` array: the canonical string padded with
zero bytes, as written into the header by `t64_write_header`. -/
def c64s_magic_padded : List Nat := c64s_magic ++ List.replicate 12 0

/-- `magic_strings[1]` in t64.c: `"C64S tape file"`. -/
def magic_string_1 : List Nat :=
  [67, 54, 52, 83, 32, 116, 97, 112, 101, 32, 102, 105, 108, 101]

/-- `magic_strings[2]` in t64.c: `"C64 tape image file"`. -/
def magic_string_2 : List Nat :=
  [67, 54, 52, 32, 116, 97, 112, 101, 32, 105, 109, 97, 103, 101, 32, 102, 105, 108, 101]

/-- The `magic_strings` table from t64.c, canonical entry first. -/
def magic_strings : List (List Nat) := [c64s_magic, magic_string_1, magic_string_2]

/-- `memcmp(ms, data, strlen(ms)) == 0` from `t64_check_magic`: the magic
string is compared as a prefix of the buffer.  A buffer shorter than the
string cannot match (in C such a read would be out of bounds). -/
def magic_matches (ms data : List Nat) : Bool :=
  data.take ms.length == ms

/-- `t64_check_magic` from t64.c: index of the first entry of
`magic_strings` matching the start of the buffer, or none (C returns -1). -/
def t64_check_magic (data : List Nat) : Option Nat :=
  magic_strings.findIdx? (fun ms => magic_matches ms data)

/-- `t64_parse_header` from t64.c, acting on a fresh image (`t64_new`
initialises `fixes` to 0) holding the file bytes.  Returns `none` when no
magic matches, which makes `t64_open` fail.  A non-canonical magic match
(index > 0) counts one fix and the canonical string is stored; then the
record counters are read and clamped (max to at least 1, used to at least
1, used down to max), each actual change counting one fix; finally the
tape name and version are copied. -/
def t64_parse_header (data : List Nat) : Option t64_image_t :=
  match t64_check_magic data with
  | none => none
  | some i =>
    let fixes0 := if 0 < i then 1 else 0
    let m0 := get_uint16 data 0x22
    let u0 := get_uint16 data 0x24
    let p1 := if m0 = 0 then (1, fixes0 + 1) else (m0, fixes0)
    let p2 := if u0 = 0 then (1, p1.2 + 1) else (u0, p1.2)
    let p3 := if p1.1 < p2.1 then (p1.1, p2.2 + 1) else (p2.1, p2.2)
    some { magic := magic_strings.getD i []
         , tapename := (data.drop 0x28).take 0x18
         , data := data
         , size := data.length
         , records := []
         , rec_max := p1.1
         , rec_used := p3.1
         , version := get_uint16 data 0x20
         , fixes := p3.2 }

/-- `t64_read_record` from t64.c.  `real_end_addr` is not assigned by the C
code (it stays uninitialized heap memory until `t64_verify` runs) and is
modelled as 0; `index` is set to 0 here and overwritten by `t64_open`. -/
def t64_read_record (data : List Nat) (base : Nat) : t64_record_t :=
  { filename := (data.drop (base + 0x10)).take 0x10
  , offset := get_uint32 data (base + 0x08)
  , start_addr := get_uint16 data (base + 0x02)
  , end_addr := get_uint16 data (base + 0x04)
  , real_end_addr := 0
  , c64s_ftype := data.getD (base + 0x00) 0
  , c1541_ftype := data.getD (base + 0x01) 0
  , index := 0
  , status := t64_status_t.ok }

/-- `t64_open` from t64.c on the in-memory bytes (file I/O is a
collaborator outside the model): parse the header, then read `rec_used`
records from the directory at offset 0x40, numbering each with its
directory position. -/
def t64_open (data : List Nat) : Option t64_image_t :=
  match t64_parse_header data with
  | none => none
  | some img =>
    some { img with records :=
      (List.range img.rec_used).map (fun i =>
        { t64_read_record data (0x40 + i * 0x20) with index := i }) }

/-- The record ordering tested by `compar_offset` in t64.c.  The `qsort`
call is modelled as a deterministic (stable) insertion sort over this
relation; C's `qsort` leaves the order of equal keys unspecified. -/
def compar_offset_le (r1 r2 : t64_record_t) : Prop := r1.offset ≤ r2.offset

instance : DecidableRel compar_offset_le := fun a b => Nat.decLe a.offset b.offset

instance : IsTotal t64_record_t compar_offset_le := ⟨fun a b => Nat.le_total a.offset b.offset⟩

instance : IsTrans t64_record_t compar_offset_le := ⟨fun _ _ _ => Nat.le_trans⟩

/-- The record ordering tested by `compar_index` in t64.c. -/
def compar_index_le (r1 r2 : t64_record_t) : Prop := r1.index ≤ r2.index

instance : DecidableRel compar_index_le := fun a b => Nat.decLe a.index b.index

instance : IsTotal t64_record_t compar_index_le := ⟨fun a b => Nat.le_total a.index b.index⟩

instance : IsTrans t64_record_t compar_index_le := ⟨fun _ _ _ => Nat.le_trans⟩

/-- The C1541 file type check inside `t64_verify`'s record loop: a value
outside [0x80, 0x85) is reset to 0x82 (prg, closed), the record is marked
fixed and one fix is counted. -/
def t64_verify_ftype (r : t64_record_t) (fixes : Nat) : t64_record_t × Nat :=
  if r.c1541_ftype < 0x80 ∨ 0x85 ≤ r.c1541_ftype then
    ({ r with c1541_ftype := 0x82, status := t64_status_t.fixed }, fixes + 1)
  else (r, fixes)

/-- The `rec_size` computation of `t64_verify`: the declared size
`end_addr - start_addr` as the C `size_t` value (int-promoted subtraction
cast to `size_t`, i.e. arithmetic mod 2^64). -/
def rec_size (r : t64_record_t) : Nat := (r.end_addr + U64 - r.start_addr) % U64

/-- The `act_size` computation of `t64_verify`: the next record's data
offset minus this record's, or the container size minus this record's
offset for the last record, as `size_t` arithmetic. -/
def act_size (size : Nat) (nextOff : Option Nat) (r : t64_record_t) : Nat :=
  match nextOff with
  | some v => (v + U64 - r.offset) % U64
  | none => (size + U64 - r.offset) % U64

/-- The end-address check inside `t64_verify`'s record loop.  `nextOff`
is the data offset of the next record in offset order, `none` for the last
record.  On a size mismatch that is not the tolerated last-record
under-report, the record is marked fixed, one fix is counted and
`real_end_addr` receives the `unsigned short` cast of
`start_addr + act_size`; on a match `real_end_addr` is set to `end_addr`
and nothing is counted. -/
def t64_verify_endaddr (size : Nat) (nextOff : Option Nat) (r : t64_record_t)
    (fixes : Nat) : t64_record_t × Nat :=
  if rec_size r ≠ act_size size nextOff r then
    if nextOff = none ∧ rec_size r < act_size size nextOff r then (r, fixes)
    else ({ r with status := t64_status_t.fixed
                 , real_end_addr := (r.start_addr + act_size size nextOff r) % U64 % U16 },
          fixes + 1)
  else ({ r with real_end_addr := r.end_addr }, fixes)

/-- One iteration of `t64_verify`'s record loop: a memory snapshot
(`c64s_ftype > 1`) is only marked skipped; any other record goes through
the file type check and then the end-address check. -/
def t64_verify_record (size : Nat) (nextOff : Option Nat) (r : t64_record_t)
    (fixes : Nat) : t64_record_t × Nat :=
  if 1 < r.c64s_ftype then ({ r with status := t64_status_t.skipped }, fixes)
  else
    let p := t64_verify_ftype r fixes
    t64_verify_endaddr size nextOff p.1 p.2

/-- `t64_verify`'s record loop over the offset-sorted records, threading
the fix counter.  The C loop runs for `i < rec_used` over an array holding
exactly `rec_used` records (invariant of `t64_open` / `t64_create`); it is
modelled as a walk over the whole list, the next record's offset feeding
`act_size` and the empty tail marking the last record. -/
def t64_verify_records (size : Nat) : List t64_record_t → Nat → List t64_record_t × Nat
  | [], fixes => ([], fixes)
  | r :: rest, fixes =>
    let nextOff : Option Nat := match rest with
      | [] => none
      | r2 :: _ => some r2.offset
    let p := t64_verify_record size nextOff r fixes
    let q := t64_verify_records size rest p.2
    (p.1 :: q.1, q.2)

/-- The record-count clamps at the top of `t64_verify`: `rec_max` raised to
1 when 0, then `rec_used` raised to 1 when 0, each counting one fix.
(Unlike `t64_parse_header`, `t64_verify` has no `rec_used > rec_max`
clamp.) -/
def t64_verify_header (img : t64_image_t) : t64_image_t :=
  let img1 :=
    if img.rec_max = 0 then { img with rec_max := 1, fixes := img.fixes + 1 } else img
  if img1.rec_used = 0 then { img1 with rec_used := 1, fixes := img1.fixes + 1 } else img1

/-- `t64_verify` from t64.c: clamp the record counts, sort the records on
data offset, run the per-record checks in that order, then restore the
original order by sorting on `index`.  Returns the image with the updated
cumulative fix counter (the C function returns `image->fixes`). -/
def t64_verify (img : t64_image_t) : t64_image_t :=
  let img1 := t64_verify_header img
  let sorted := List.insertionSort compar_offset_le img1.records
  let p := t64_verify_records img1.size sorted img1.fixes
  { img1 with records := List.insertionSort compar_index_le p.1, fixes := p.2 }

example : t64_check_magic (c64s_magic ++ List.replicate 44 0) = some 0 := by decide

example : t64_check_magic (magic_string_1 ++ List.replicate 50 0) = some 1 := by decide

example : t64_check_magic (List.replicate 64 7) = none := by decide

theorem sub_mod_u64 (a b : Nat) (hba : b ≤ a) (ha : a < U64) :
    (a + U64 - b) % U64 = a - b := by
  rw [Nat.sub_add_comm hba, Nat.add_mod_right, Nat.mod_eq_of_lt (Nat.lt_of_le_of_lt (Nat.sub_le a b) ha)]

theorem mod_u64_u16 (x : Nat) : x % U64 % U16 = x % U16 :=
  Nat.mod_mod_of_dvd x ⟨2 ^ 48, by norm_num [U16, U64]⟩

/-- C1: in `t64_verify`'s offset-order record pass, a non-snapshot record's
actual size is the next record's data offset minus its own data offset
(for the last record: the container size minus its data offset).  When the
declared size `end_addr - start_addr` equals this actual size,
`real_end_addr` is set to `end_addr` with no fix counted; otherwise -
except the tolerated last-record under-report - `real_end_addr` is set to
`start_addr + actual_size` truncated to 16 bits, the record is marked
fixed, and the fix counter increments by exactly one.  The last conjunct
records that for non-snapshot records the per-record engine step is the
file type check followed by exactly this end-address check. -/
theorem t64_verify_endaddr_spec (size : Nat) (nextOff : Option Nat) (r : t64_record_t)
    (fixes : Nat)
    (hse : r.start_addr ≤ r.end_addr) (he : r.end_addr < U64)
    (hnext : ∀ v, nextOff = some v → r.offset ≤ v ∧ v < U64)
    (hlast : nextOff = none → r.offset ≤ size ∧ size < U64) :
    (∀ v, nextOff = some v →
      (r.end_addr - r.start_addr = v - r.offset →
        t64_verify_endaddr size nextOff r fixes
          = ({ r with real_end_addr := r.end_addr }, fixes))
      ∧ (r.end_addr - r.start_addr ≠ v - r.offset →
        t64_verify_endaddr size nextOff r fixes
          = ({ r with status := t64_status_t.fixed,
                      real_end_addr := (r.start_addr + (v - r.offset)) % U16 }, fixes + 1)))
    ∧ (nextOff = none →
      (r.end_addr - r.start_addr = size - r.offset →
        t64_verify_endaddr size nextOff r fixes
          = ({ r with real_end_addr := r.end_addr }, fixes))
      ∧ (r.end_addr - r.start_addr ≠ size - r.offset →
         ¬ r.end_addr - r.start_addr < size - r.offset →
        t64_verify_endaddr size nextOff r fixes
          = ({ r with status := t64_status_t.fixed,
                      real_end_addr := (r.start_addr + (size - r.offset)) % U16 }, fixes + 1)))
    ∧ (¬ 1 < r.c64s_ftype →
        t64_verify_record size nextOff r fixes
          = t64_verify_endaddr size nextOff (t64_verify_ftype r fixes).1
              (t64_verify_ftype r fixes).2) := by
  have hrec : (r.end_addr + U64 - r.start_addr) % U64 = r.end_addr - r.start_addr :=
    sub_mod_u64 _ _ hse he
  refine ⟨?_, ?_, ?_⟩
  · intro v hv
    subst hv
    obtain ⟨h1, h2⟩ := hnext v rfl
    have hact : (v + U64 - r.offset) % U64 = v - r.offset := sub_mod_u64 _ _ h1 h2
    constructor
    · intro heq
      simp only [t64_verify_endaddr, rec_size, act_size, hrec, hact]
      rw [if_neg (by simpa using heq)]
    · intro hne
      simp only [t64_verify_endaddr, rec_size, act_size, hrec, hact]
      rw [if_pos hne, if_neg (by simp), mod_u64_u16]
  · intro hv
    subst hv
    obtain ⟨h1, h2⟩ := hlast rfl
    have hact : (size + U64 - r.offset) % U64 = size - r.offset := sub_mod_u64 _ _ h1 h2
    constructor
    · intro heq
      simp only [t64_verify_endaddr, rec_size, act_size, hrec, hact]
      rw [if_neg (by simpa using heq)]
    · intro hne hnlt
      simp only [t64_verify_endaddr, rec_size, act_size, hrec, hact]
      rw [if_pos hne, if_neg (by simpa using hnlt), mod_u64_u16]
  · intro hsnap
    simp only [t64_verify_record, if_neg hsnap]

/-- Witness for `t64_verify_endaddr_spec` at a concrete record: a
mismatched middle record (declared size 5, actual size 3) is fixed with
one fix and truncated 16-bit corrected end address. -/
theorem t64_verify_endaddr_spec_witness :
    t64_verify_endaddr 100 (some 13) ⟨[], 10, 4, 9, 0, 0, 0x82, 0, t64_status_t.ok⟩ 7
      = (⟨[], 10, 4, 9, 7, 0, 0x82, 0, t64_status_t.fixed⟩, 8) := by
  have h := (t64_verify_endaddr_spec 100 (some 13)
      ⟨[], 10, 4, 9, 0, 0, 0x82, 0, t64_status_t.ok⟩ 7
      (by decide) (by decide)
      (by intro v hv; cases hv; exact ⟨by decide, by decide⟩)
      (by intro hv; cases hv)).1 13 rfl
  have h2 := h.2 (by decide)
  rw [h2]
  decide

/-- C3 (amended): when the last record in data offset order is a
non-snapshot record whose declared size is strictly smaller than its
actual size, the end-address check applies no fix to it: the record and
the fix counter pass through unchanged, so neither its status nor its
`real_end_addr` is written in that branch, and the whole per-record engine
step reduces to just the independent C1541 file type check (which may
still fix the record when its disk file type byte is invalid). -/
theorem t64_verify_endaddr_last_underreport (size : Nat) (r : t64_record_t) (fixes : Nat)
    (hse : r.start_addr ≤ r.end_addr) (he : r.end_addr < U64)
    (hoff : r.offset ≤ size) (hsz : size < U64)
    (hlt : r.end_addr - r.start_addr < size - r.offset) :
    t64_verify_endaddr size none r fixes = (r, fixes)
    ∧ (¬ 1 < r.c64s_ftype →
        t64_verify_record size none r fixes = t64_verify_ftype r fixes) := by
  have hrec : (r.end_addr + U64 - r.start_addr) % U64 = r.end_addr - r.start_addr :=
    sub_mod_u64 _ _ hse he
  have hact : (size + U64 - r.offset) % U64 = size - r.offset := sub_mod_u64 _ _ hoff hsz
  have hmain : t64_verify_endaddr size none r fixes = (r, fixes) := by
    simp only [t64_verify_endaddr, rec_size, act_size, hrec, hact]
    rw [if_pos (Nat.ne_of_lt hlt), if_pos ⟨by trivial, hlt⟩]
  refine ⟨hmain, fun hsnap => ?_⟩
  simp only [t64_verify_record, if_neg hsnap]
  have h1 : ((t64_verify_ftype r fixes).1).start_addr = r.start_addr ∧
      ((t64_verify_ftype r fixes).1).end_addr = r.end_addr ∧
      ((t64_verify_ftype r fixes).1).offset = r.offset := by
    simp only [t64_verify_ftype]
    split <;> exact ⟨rfl, rfl, rfl⟩
  obtain ⟨hs, hend, ho⟩ := h1
  have hrec' : (((t64_verify_ftype r fixes).1).end_addr + U64 -
      ((t64_verify_ftype r fixes).1).start_addr) % U64 =
      r.end_addr - r.start_addr := by rw [hs, hend, hrec]
  have hact' : (size + U64 - ((t64_verify_ftype r fixes).1).offset) % U64 =
      size - r.offset := by rw [ho, hact]
  simp only [t64_verify_endaddr, rec_size, act_size, hrec', hact']
  rw [if_pos (Nat.ne_of_lt hlt), if_pos ⟨by trivial, hlt⟩]

/-- Witness for `t64_verify_endaddr_last_underreport`: a last record with
declared size 2 and actual size 9 passes through the end-address check
untouched. -/
theorem t64_verify_endaddr_last_underreport_witness :
    t64_verify_endaddr 29 none ⟨[], 20, 3, 5, 0, 0, 0x82, 0, t64_status_t.ok⟩ 4
      = (⟨[], 20, 3, 5, 0, 0, 0x82, 0, t64_status_t.ok⟩, 4) :=
  (t64_verify_endaddr_last_underreport 29 ⟨[], 20, 3, 5, 0, 0, 0x82, 0, t64_status_t.ok⟩ 4
      (by decide) (by decide) (by decide) (by decide) (by decide)).1

/-- Concrete container refuting C3 as stated: its single (hence last)
record under-reports its size (declared 0x10, actual 0x20) but carries the
invalid C1541 file type byte 0x01. -/
def cexRecordC3 : t64_record_t := ⟨[], 0x60, 0, 0x10, 0, 0, 0x01, 0, t64_status_t.ok⟩

/-- The container around `cexRecordC3`: size 0x80, one record. -/
def cexImageC3 : t64_image_t := ⟨[], [], [], 0x80, [cexRecordC3], 1, 1, 0x101, 0⟩

/-- Counterexample to C3 as stated: the verify engine does increment the
fix counter for a last, under-reporting, non-snapshot record - the
independent C1541 file type fix still applies, marking the record fixed
and counting one fix, even though the end-address branch is skipped
(`real_end_addr` stays at its prior value 0). -/
theorem t64_verify_last_underreport_cex :
    (t64_verify cexImageC3).fixes = 1
    ∧ ((t64_verify cexImageC3).records.getD 0 cexRecordC3).status = t64_status_t.fixed
    ∧ ((t64_verify cexImageC3).records.getD 0 cexRecordC3).real_end_addr = 0 := by
  decide

/-- C7: when opening an existing image, `t64_parse_header` corrects each
header count anomaly with exactly one fix: a stored `rec_max` of 0 becomes
1 (one fix), a stored `rec_used` of 0 becomes 1 (one fix), and a stored
`rec_used` exceeding `rec_max` is clamped down to `rec_max` (one fix); the
total fix count is the sum of the magic fix and these three independent
contributions. -/
theorem t64_parse_header_clamps (data : List Nat) (i : Nat)
    (hm : t64_check_magic data = some i) :
    ∃ img, t64_parse_header data = some img
      ∧ img.rec_max = (if get_uint16 data 0x22 = 0 then 1 else get_uint16 data 0x22)
      ∧ img.rec_used =
          (if (if get_uint16 data 0x22 = 0 then 1 else get_uint16 data 0x22) <
              (if get_uint16 data 0x24 = 0 then 1 else get_uint16 data 0x24)
           then (if get_uint16 data 0x22 = 0 then 1 else get_uint16 data 0x22)
           else (if get_uint16 data 0x24 = 0 then 1 else get_uint16 data 0x24))
      ∧ img.fixes = (if 0 < i then 1 else 0)
          + (if get_uint16 data 0x22 = 0 then 1 else 0)
          + (if get_uint16 data 0x24 = 0 then 1 else 0)
          + (if (if get_uint16 data 0x22 = 0 then 1 else get_uint16 data 0x22) <
               (if get_uint16 data 0x24 = 0 then 1 else get_uint16 data 0x24)
             then 1 else 0) := by
  simp only [t64_parse_header, hm]
  refine ⟨_, rfl, ?_, ?_, ?_⟩ <;>
    · simp only []
      split_ifs <;> simp_all

/-- Header bytes for the `t64_parse_header_clamps` witness: canonical
magic, version 0x0101, stored `rec_max` 3 and `rec_used` 5. -/
def parseWitnessData : List Nat :=
  c64s_magic_padded ++ [0x01, 0x01, 3, 0, 5, 0] ++ List.replicate 26 0

/-- Witness for `t64_parse_header_clamps`: stored counts (max 3, used 5)
are clamped to used = 3 with exactly one fix. -/
theorem t64_parse_header_clamps_witness :
    ∃ img, t64_parse_header parseWitnessData = some img
      ∧ img.rec_max = 3 ∧ img.rec_used = 3 ∧ img.fixes = 1 := by
  obtain ⟨img, h1, h2, h3, h4⟩ := t64_parse_header_clamps parseWitnessData 0 (by decide)
  refine ⟨img, h1, ?_, ?_, ?_⟩
  · rw [h2]; decide
  · rw [h3]; decide
  · rw [h4]; decide

/-- `set_uint16` from base.c: store a 16-bit value little-endian.  Writes
past the end of the buffer (undefined behaviour in C) are dropped by
`List.set`. -/
def set_uint16 (buf : List Nat) (off v : Nat) : List Nat :=
  (buf.set off (v % 256)).set (off + 1) (v / 256 % 256)

/-- `set_uint32` from base.c: store a 32-bit value little-endian. -/
def set_uint32 (buf : List Nat) (off v : Nat) : List Nat :=
  ((set_uint16 buf off (v % 65536)).set (off + 2) (v / 65536 % 256)).set
    (off + 3) (v / 16777216 % 256)

/-- `memcpy(buf + off, src, src.length)`: copy a byte sequence into the
buffer at the given offset. -/
def memcpyAt (buf : List Nat) (off : Nat) (src : List Nat) : List Nat :=
  match src with
  | [] => buf
  | b :: rest => memcpyAt (buf.set off b) (off + 1) rest

/-- `t64_write_header` from t64.c: unconditionally store the canonical
32-byte magic, the tape name, the canonical version 0x101, and the record
counters into the image buffer at their fixed offsets. -/
def t64_write_header (img : t64_image_t) : List Nat :=
  let b1 := memcpyAt img.data 0x00 c64s_magic_padded
  let b2 := memcpyAt b1 0x28 img.tapename
  let b3 := set_uint16 b2 0x20 0x101
  let b4 := set_uint16 b3 0x22 img.rec_max
  set_uint16 b4 0x24 img.rec_used

/-- `t64_write_record` from t64.c: serialize one record into its 32-byte
directory slot - file type bytes, `start_addr`, then `real_end_addr` in
place of the declared end address, the 32-bit data offset (C passes the
`unsigned long` offset as `uint32_t`, truncating), and the 16 filename
bytes.  Bytes 6-7 and 12-15 of the slot are left untouched. -/
def t64_write_record (r : t64_record_t) (buf : List Nat) (base : Nat) : List Nat :=
  let b1 := buf.set (base + 0x00) r.c64s_ftype
  let b2 := b1.set (base + 0x01) r.c1541_ftype
  let b3 := set_uint16 b2 (base + 0x02) r.start_addr
  let b4 := set_uint16 b3 (base + 0x04) r.real_end_addr
  let b5 := set_uint32 b4 (base + 0x08) (r.offset % 4294967296)
  memcpyAt b5 (base + 0x10) r.filename

/-- The record-writing loop of `t64_write`: record i goes to offset
0x40 + 32 * i.  Every record is written, regardless of its status. -/
def t64_write_records (records : List t64_record_t) (buf : List Nat) (base : Nat) : List Nat :=
  match records with
  | [] => buf
  | r :: rest => t64_write_records rest (t64_write_record r buf base) (base + 32)

/-- `t64_write` from t64.c, producing the final byte buffer handed to the
file-writing collaborator: corrected header, then every record serialized
into the directory. -/
def t64_write (img : t64_image_t) : List Nat :=
  t64_write_records img.records (t64_write_header img) 0x40

theorem getD_set_same (l : List Nat) (i v : Nat) (h : i < l.length) :
    (l.set i v).getD i 0 = v := by
  simp [List.getD_eq_getElem?_getD, List.getElem?_set_eq_of_lt v h]

theorem getD_set_other (l : List Nat) (i v j : Nat) (h : i ≠ j) :
    (l.set i v).getD j 0 = l.getD j 0 := by
  simp [List.getD_eq_getElem?_getD, List.getElem?_set_ne h]

theorem set_uint16_length (buf : List Nat) (off v : Nat) :
    (set_uint16 buf off v).length = buf.length := by
  simp [set_uint16]

theorem set_uint32_length (buf : List Nat) (off v : Nat) :
    (set_uint32 buf off v).length = buf.length := by
  simp [set_uint32, set_uint16]

theorem memcpyAt_length (src : List Nat) : ∀ buf off, (memcpyAt buf off src).length = buf.length := by
  induction src with
  | nil => intro buf off; rfl
  | cons b rest ih => intro buf off; simp [memcpyAt, ih]

theorem set_uint16_getD_lo (buf : List Nat) (off v : Nat) (h : off + 1 < buf.length) :
    (set_uint16 buf off v).getD off 0 = v % 256 := by
  unfold set_uint16
  rw [getD_set_other _ _ _ _ (by omega), getD_set_same _ _ _ (by omega)]

theorem set_uint16_getD_hi (buf : List Nat) (off v : Nat) (h : off + 1 < buf.length) :
    (set_uint16 buf off v).getD (off + 1) 0 = v / 256 % 256 := by
  unfold set_uint16
  rw [getD_set_same _ _ _ (by simpa using h)]

theorem set_uint16_getD_out (buf : List Nat) (off v j : Nat) (h1 : j ≠ off) (h2 : j ≠ off + 1) :
    (set_uint16 buf off v).getD j 0 = buf.getD j 0 := by
  unfold set_uint16
  rw [getD_set_other _ _ _ _ (Ne.symm h2), getD_set_other _ _ _ _ (Ne.symm h1)]

theorem set_uint32_getD_b0 (buf : List Nat) (off v : Nat) (h : off + 3 < buf.length) :
    (set_uint32 buf off v).getD off 0 = v % 256 := by
  unfold set_uint32
  rw [getD_set_other _ _ _ _ (by omega), getD_set_other _ _ _ _ (by omega),
    set_uint16_getD_lo _ _ _ (by omega), Nat.mod_mod_of_dvd v (by norm_num)]

theorem set_uint32_getD_b1 (buf : List Nat) (off v : Nat) (h : off + 3 < buf.length) :
    (set_uint32 buf off v).getD (off + 1) 0 = v / 256 % 256 := by
  unfold set_uint32
  rw [getD_set_other _ _ _ _ (by omega), getD_set_other _ _ _ _ (by omega),
    set_uint16_getD_hi _ _ _ (by omega),
    (by norm_num : (65536 : Nat) = 256 * 256), Nat.mod_mul_right_div_self,
    Nat.mod_mod_of_dvd _ dvd_rfl]

theorem set_uint32_getD_b2 (buf : List Nat) (off v : Nat) (h : off + 3 < buf.length) :
    (set_uint32 buf off v).getD (off + 2) 0 = v / 65536 % 256 := by
  unfold set_uint32
  rw [getD_set_other _ _ _ _ (by omega),
    getD_set_same _ _ _ (by rw [set_uint16_length]; omega)]

theorem set_uint32_getD_b3 (buf : List Nat) (off v : Nat) (h : off + 3 < buf.length) :
    (set_uint32 buf off v).getD (off + 3) 0 = v / 16777216 % 256 := by
  unfold set_uint32
  rw [getD_set_same _ _ _ (by simp [set_uint16_length]; omega)]

theorem set_uint32_getD_out (buf : List Nat) (off v j : Nat)
    (h1 : j ≠ off) (h2 : j ≠ off + 1) (h3 : j ≠ off + 2) (h4 : j ≠ off + 3) :
    (set_uint32 buf off v).getD j 0 = buf.getD j 0 := by
  unfold set_uint32
  rw [getD_set_other _ _ _ _ (Ne.symm h4), getD_set_other _ _ _ _ (Ne.symm h3),
    set_uint16_getD_out _ _ _ _ h1 h2]

theorem memcpyAt_getD_before (src : List Nat) : ∀ buf off j, j < off →
    (memcpyAt buf off src).getD j 0 = buf.getD j 0 := by
  induction src with
  | nil => intro buf off j _; rfl
  | cons b rest ih =>
    intro buf off j h
    unfold memcpyAt
    rw [ih _ _ _ (by omega), getD_set_other _ _ _ _ (by omega)]

theorem memcpyAt_getD_at (src : List Nat) : ∀ buf off k, k < src.length →
    off + src.length ≤ buf.length →
    (memcpyAt buf off src).getD (off + k) 0 = src.getD k 0 := by
  induction src with
  | nil => intro buf off k hk; simp at hk
  | cons b rest ih =>
    intro buf off k hk hb
    unfold memcpyAt
    cases k with
    | zero =>
      rw [memcpyAt_getD_before _ _ _ _ (by omega), Nat.add_zero,
        getD_set_same _ _ _ (by simp at hb ⊢; omega)]
      rfl
    | succ k =>
      have : off + (k + 1) = (off + 1) + k := by omega
      rw [this, ih _ _ _ (by simpa using hk) (by simp at hb ⊢; omega)]
      rfl

theorem t64_write_record_length (r : t64_record_t) (buf : List Nat) (base : Nat) :
    (t64_write_record r buf base).length = buf.length := by
  simp [t64_write_record, memcpyAt_length, set_uint32_length, set_uint16_length]

theorem t64_write_record_getD_before (r : t64_record_t) (buf : List Nat) (base j : Nat)
    (h : j < base) :
    (t64_write_record r buf base).getD j 0 = buf.getD j 0 := by
  unfold t64_write_record
  rw [memcpyAt_getD_before _ _ _ _ (by omega),
    set_uint32_getD_out _ _ _ _ (by omega) (by omega) (by omega) (by omega),
    set_uint16_getD_out _ _ _ _ (by omega) (by omega),
    set_uint16_getD_out _ _ _ _ (by omega) (by omega),
    getD_set_other _ _ _ _ (by omega), getD_set_other _ _ _ _ (by omega)]

/-- The bytes `t64_write_record` stores in the record's 32-byte directory
slot: the two file type bytes, `start_addr` and `real_end_addr` in
little-endian, the 32-bit data offset, and the filename bytes.  The
serializer reads neither `end_addr` nor `status`. -/
theorem t64_write_record_bytes (r : t64_record_t) (buf : List Nat) (base : Nat)
    (hb : base + 0x20 ≤ buf.length) (hf : r.filename.length ≤ 0x10)
    (hoff : r.offset < 4294967296) :
    (t64_write_record r buf base).getD (base + 0x00) 0 = r.c64s_ftype
    ∧ (t64_write_record r buf base).getD (base + 0x01) 0 = r.c1541_ftype
    ∧ (t64_write_record r buf base).getD (base + 0x02) 0 = r.start_addr % 256
    ∧ (t64_write_record r buf base).getD (base + 0x03) 0 = r.start_addr / 256 % 256
    ∧ (t64_write_record r buf base).getD (base + 0x04) 0 = r.real_end_addr % 256
    ∧ (t64_write_record r buf base).getD (base + 0x05) 0 = r.real_end_addr / 256 % 256
    ∧ (t64_write_record r buf base).getD (base + 0x08) 0 = r.offset % 256
    ∧ (t64_write_record r buf base).getD (base + 0x09) 0 = r.offset / 256 % 256
    ∧ (t64_write_record r buf base).getD (base + 0x0a) 0 = r.offset / 65536 % 256
    ∧ (t64_write_record r buf base).getD (base + 0x0b) 0 = r.offset / 16777216 % 256
    ∧ (∀ k, k < r.filename.length →
        (t64_write_record r buf base).getD (base + 0x10 + k) 0 = r.filename.getD k 0) := by
  have hmod : r.offset % 4294967296 = r.offset := Nat.mod_eq_of_lt hoff
  have l1 : ∀ v, (buf.set (base + 0x00) v).length = buf.length := by simp
  have l2 : ∀ v w, ((buf.set (base + 0x00) v).set (base + 0x01) w).length = buf.length := by simp
  unfold t64_write_record
  refine ⟨?_, ?_, ?_, ?_, ?_, ?_, ?_, ?_, ?_, ?_, ?_⟩
  · rw [memcpyAt_getD_before _ _ _ _ (by omega),
      set_uint32_getD_out _ _ _ _ (by omega) (by omega) (by omega) (by omega),
      set_uint16_getD_out _ _ _ _ (by omega) (by omega),
      set_uint16_getD_out _ _ _ _ (by omega) (by omega),
      getD_set_other _ _ _ _ (by omega), getD_set_same _ _ _ (by omega)]
  · rw [memcpyAt_getD_before _ _ _ _ (by omega),
      set_uint32_getD_out _ _ _ _ (by omega) (by omega) (by omega) (by omega),
      set_uint16_getD_out _ _ _ _ (by omega) (by omega),
      set_uint16_getD_out _ _ _ _ (by omega) (by omega),
      getD_set_same _ _ _ (by rw [l1]; omega)]
  · rw [memcpyAt_getD_before _ _ _ _ (by omega),
      set_uint32_getD_out _ _ _ _ (by omega) (by omega) (by omega) (by omega),
      set_uint16_getD_out _ _ _ _ (by omega) (by omega),
      set_uint16_getD_lo _ _ _ (by rw [l2]; omega)]
  · have e3 : base + 0x03 = (base + 0x02) + 1 := by omega
    rw [memcpyAt_getD_before _ _ _ _ (by omega),
      set_uint32_getD_out _ _ _ _ (by omega) (by omega) (by omega) (by omega),
      set_uint16_getD_out _ _ _ _ (by omega) (by omega), e3,
      set_uint16_getD_hi _ _ _ (by rw [l2]; omega)]
  · rw [memcpyAt_getD_before _ _ _ _ (by omega),
      set_uint32_getD_out _ _ _ _ (by omega) (by omega) (by omega) (by omega),
      set_uint16_getD_lo _ _ _ (by rw [set_uint16_length, l2]; omega)]
  · have e5 : base + 0x05 = (base + 0x04) + 1 := by omega
    rw [memcpyAt_getD_before _ _ _ _ (by omega),
      set_uint32_getD_out _ _ _ _ (by omega) (by omega) (by omega) (by omega), e5,
      set_uint16_getD_hi _ _ _ (by rw [set_uint16_length, l2]; omega)]
  · rw [memcpyAt_getD_before _ _ _ _ (by omega),
      set_uint32_getD_b0 _ _ _ (by rw [set_uint16_length, set_uint16_length, l2]; omega), hmod]
  · have e9 : base + 0x09 = (base + 0x08) + 1 := by omega
    rw [memcpyAt_getD_before _ _ _ _ (by omega), e9,
      set_uint32_getD_b1 _ _ _ (by rw [set_uint16_length, set_uint16_length, l2]; omega), hmod]
  · have ea : base + 0x0a = (base + 0x08) + 2 := by omega
    rw [memcpyAt_getD_before _ _ _ _ (by omega), ea,
      set_uint32_getD_b2 _ _ _ (by rw [set_uint16_length, set_uint16_length, l2]; omega), hmod]
  · have eb : base + 0x0b = (base + 0x08) + 3 := by omega
    rw [memcpyAt_getD_before _ _ _ _ (by omega), eb,
      set_uint32_getD_b3 _ _ _ (by rw [set_uint16_length, set_uint16_length, l2]; omega), hmod]
  · intro k hk
    rw [memcpyAt_getD_at _ _ _ _ hk
      (by rw [set_uint32_length, set_uint16_length, set_uint16_length, l2]; omega)]

theorem t64_write_records_length (records : List t64_record_t) :
    ∀ buf base, (t64_write_records records buf base).length = buf.length := by
  induction records with
  | nil => intro buf base; rfl
  | cons r rest ih =>
    intro buf base
    unfold t64_write_records
    rw [ih, t64_write_record_length]

theorem t64_write_records_getD_before (records : List t64_record_t) :
    ∀ buf base j, j < base →
      (t64_write_records records buf base).getD j 0 = buf.getD j 0 := by
  induction records with
  | nil => intro buf base j _; rfl
  | cons r rest ih =>
    intro buf base j h
    unfold t64_write_records
    rw [ih _ _ _ (by omega), t64_write_record_getD_before _ _ _ _ h]

/-- Directory slot i of the serialized output holds the bytes of record i,
for every record in the list: the record loop of `t64_write` writes each
record at offset `base + 32 * i` irrespective of its status or type. -/
theorem t64_write_records_slot_bytes (records : List t64_record_t) :
    ∀ buf base i (h : i < records.length),
      base + 32 * records.length ≤ buf.length →
      (records.get ⟨i, h⟩).filename.length ≤ 0x10 →
      (records.get ⟨i, h⟩).offset < 4294967296 →
      (t64_write_records records buf base).getD (base + 32 * i + 0x00) 0
          = (records.get ⟨i, h⟩).c64s_ftype
      ∧ (t64_write_records records buf base).getD (base + 32 * i + 0x01) 0
          = (records.get ⟨i, h⟩).c1541_ftype
      ∧ (t64_write_records records buf base).getD (base + 32 * i + 0x02) 0
          = (records.get ⟨i, h⟩).start_addr % 256
      ∧ (t64_write_records records buf base).getD (base + 32 * i + 0x03) 0
          = (records.get ⟨i, h⟩).start_addr / 256 % 256
      ∧ (t64_write_records records buf base).getD (base + 32 * i + 0x04) 0
          = (records.get ⟨i, h⟩).real_end_addr % 256
      ∧ (t64_write_records records buf base).getD (base + 32 * i + 0x05) 0
          = (records.get ⟨i, h⟩).real_end_addr / 256 % 256
      ∧ (t64_write_records records buf base).getD (base + 32 * i + 0x08) 0
          = (records.get ⟨i, h⟩).offset % 256
      ∧ (t64_write_records records buf base).getD (base + 32 * i + 0x09) 0
          = (records.get ⟨i, h⟩).offset / 256 % 256
      ∧ (t64_write_records records buf base).getD (base + 32 * i + 0x0a) 0
          = (records.get ⟨i, h⟩).offset / 65536 % 256
      ∧ (t64_write_records records buf base).getD (base + 32 * i + 0x0b) 0
          = (records.get ⟨i, h⟩).offset / 16777216 % 256
      ∧ (∀ k, k < (records.get ⟨i, h⟩).filename.length →
          (t64_write_records records buf base).getD (base + 32 * i + 0x10 + k) 0
            = (records.get ⟨i, h⟩).filename.getD k 0) := by
  induction records with
  | nil => intro buf base i h; simp at h
  | cons r rest ih =>
    intro buf base i h hb hf hoff
    cases i with
    | zero =>
      have hr0 : (r :: rest).get ⟨0, h⟩ = r := rfl
      rw [hr0] at hf hoff ⊢
      have hbytes := t64_write_record_bytes r buf base (by simp at hb; omega) hf hoff
      unfold t64_write_records
      refine ⟨?_, ?_, ?_, ?_, ?_, ?_, ?_, ?_, ?_, ?_, ?_⟩
      · rw [t64_write_records_getD_before _ _ _ _ (by omega)]
        simpa using hbytes.1
      · rw [t64_write_records_getD_before _ _ _ _ (by omega)]
        simpa using hbytes.2.1
      · rw [t64_write_records_getD_before _ _ _ _ (by omega)]
        simpa using hbytes.2.2.1
      · rw [t64_write_records_getD_before _ _ _ _ (by omega)]
        simpa using hbytes.2.2.2.1
      · rw [t64_write_records_getD_before _ _ _ _ (by omega)]
        simpa using hbytes.2.2.2.2.1
      · rw [t64_write_records_getD_before _ _ _ _ (by omega)]
        simpa using hbytes.2.2.2.2.2.1
      · rw [t64_write_records_getD_before _ _ _ _ (by omega)]
        simpa using hbytes.2.2.2.2.2.2.1
      · rw [t64_write_records_getD_before _ _ _ _ (by omega)]
        simpa using hbytes.2.2.2.2.2.2.2.1
      · rw [t64_write_records_getD_before _ _ _ _ (by omega)]
        simpa using hbytes.2.2.2.2.2.2.2.2.1
      · rw [t64_write_records_getD_before _ _ _ _ (by omega)]
        simpa using hbytes.2.2.2.2.2.2.2.2.2.1
      · intro k hk
        rw [t64_write_records_getD_before _ _ _ _ (by omega)]
        have := hbytes.2.2.2.2.2.2.2.2.2.2 k hk
        simpa using this
    | succ i =>
      have hrs : (r :: rest).get ⟨i + 1, h⟩ = rest.get ⟨i, Nat.lt_of_succ_lt_succ (by simpa using h)⟩ := rfl
      rw [hrs] at hf hoff ⊢
      have hlen : (t64_write_record r buf base).length = buf.length :=
        t64_write_record_length r buf base
      have harith : ∀ c : Nat, base + 32 * (i + 1) + c = (base + 32) + 32 * i + c := by
        intro c; omega
      have hb2 : (base + 32) + 32 * rest.length ≤ (t64_write_record r buf base).length := by
        rw [hlen]; simp at hb; omega
      have hrec := ih (t64_write_record r buf base) (base + 32) i
        (Nat.lt_of_succ_lt_succ (by simpa using h)) hb2 hf hoff
      unfold t64_write_records
      refine ⟨?_, ?_, ?_, ?_, ?_, ?_, ?_, ?_, ?_, ?_, ?_⟩
      · rw [harith]; exact hrec.1
      · rw [harith]; exact hrec.2.1
      · rw [harith]; exact hrec.2.2.1
      · rw [harith]; exact hrec.2.2.2.1
      · rw [harith]; exact hrec.2.2.2.2.1
      · rw [harith]; exact hrec.2.2.2.2.2.1
      · rw [harith]; exact hrec.2.2.2.2.2.2.1
      · rw [harith]; exact hrec.2.2.2.2.2.2.2.1
      · rw [harith]; exact hrec.2.2.2.2.2.2.2.2.1
      · rw [harith]; exact hrec.2.2.2.2.2.2.2.2.2.1
      · intro k hk
        have harith2 : base + 32 * (i + 1) + 0x10 + k = (base + 32) + 32 * i + 0x10 + k := by
          omega
        rw [harith2]
        exact hrec.2.2.2.2.2.2.2.2.2.2 k hk

theorem t64_write_header_length (img : t64_image_t) :
    (t64_write_header img).length = img.data.length := by
  simp [t64_write_header, set_uint16_length, memcpyAt_length]

theorem t64_write_header_magic (img : t64_image_t) (h : 0x40 ≤ img.data.length) :
    ∀ j, j < 0x20 → (t64_write_header img).getD j 0 = c64s_magic_padded.getD j 0 := by
  intro j hj
  have hlen32 : c64s_magic_padded.length = 32 := rfl
  unfold t64_write_header
  rw [set_uint16_getD_out _ _ _ _ (by omega) (by omega),
    set_uint16_getD_out _ _ _ _ (by omega) (by omega),
    set_uint16_getD_out _ _ _ _ (by omega) (by omega),
    memcpyAt_getD_before _ _ _ _ (by omega)]
  have h0 : j = 0 + j := (Nat.zero_add j).symm
  rw [h0, memcpyAt_getD_at _ _ _ _ (by rw [hlen32]; omega) (by rw [hlen32]; omega),
    Nat.zero_add]

/-- C6: opening an image fails exactly when the buffer start matches none
of the known magic strings as a prefix (`NotAContainer` is the only
parse-time failure); when a known non-canonical variant matches and the
stored counts are sane, opening succeeds with exactly one fix counted for
the header phase; and the serialized output always carries the canonical
32 magic bytes at offset 0, regardless of which variant was read. -/
theorem t64_magic_canonicalization (data : List Nat) :
    (t64_open data = none ↔ t64_check_magic data = none)
    ∧ (∀ i, t64_check_magic data = some i → 0 < i →
        get_uint16 data 0x22 ≠ 0 → get_uint16 data 0x24 ≠ 0 →
        ¬ get_uint16 data 0x22 < get_uint16 data 0x24 →
        ∃ img, t64_open data = some img ∧ img.fixes = 1)
    ∧ (∀ img : t64_image_t, 0x40 ≤ img.data.length → ∀ j, j < 0x20 →
        (t64_write img).getD j 0 = c64s_magic_padded.getD j 0) := by
  refine ⟨?_, ?_, ?_⟩
  · cases hcm : t64_check_magic data with
    | none => simp [t64_open, t64_parse_header, hcm]
    | some i => simp [t64_open, t64_parse_header, hcm]
  · intro i hcm hi hm hu hmu
    simp only [t64_open, t64_parse_header, hcm]
    refine ⟨_, rfl, ?_⟩
    simp only [if_pos hi, if_neg hm, if_neg hu]
    rw [if_neg hmu]
  · intro img hlen j hj
    unfold t64_write
    rw [t64_write_records_getD_before _ _ _ _ (by omega)]
    exact t64_write_header_magic img hlen j hj

/-- Header bytes for the `t64_magic_canonicalization` witness: the
non-canonical variant `"C64S tape file"` (magic_strings index 1), padded,
with version 0x0101 and counts max 4 / used 2. -/
def magicWitnessData : List Nat :=
  magic_string_1 ++ List.replicate 18 0 ++ [0x01, 0x01, 4, 0, 2, 0] ++ List.replicate 26 0

/-- Witness for `t64_magic_canonicalization`: the non-canonical variant
opens with exactly one fix; a no-magic buffer fails to open; a concrete
image writes the canonical magic bytes. -/
theorem t64_magic_canonicalization_witness :
    t64_open (List.replicate 64 7) = none
    ∧ (∃ img, t64_open magicWitnessData = some img ∧ img.fixes = 1)
    ∧ (t64_write ⟨[], List.replicate 24 32, List.replicate 0x40 9, 0x40, [], 1, 1, 0x101, 0⟩).getD 3 0
        = c64s_magic_padded.getD 3 0 := by
  refine ⟨?_, ?_, ?_⟩
  · exact (t64_magic_canonicalization (List.replicate 64 7)).1.mpr (by decide)
  · exact (t64_magic_canonicalization magicWitnessData).2.1 1 (by decide) (by decide)
      (by decide) (by decide) (by decide)
  · exact (t64_magic_canonicalization []).2.2
      ⟨[], List.replicate 24 32, List.replicate 0x40 9, 0x40, [], 1, 1, 0x101, 0⟩
      (by decide) 3 (by decide)

/-- C9: a record with `c64s_ftype > 1` (memory snapshot) is only marked
SKIPPED by the verify engine - neither the type-byte fix nor the
end-address fix applies and every other field is unchanged - yet
serialization still writes the record's bytes into its directory slot
exactly like any other record (the writer never looks at the status or the
snapshot type). -/
theorem t64_snapshot_skip_serialize :
    (∀ (size : Nat) (nextOff : Option Nat) (r : t64_record_t) (fixes : Nat),
      1 < r.c64s_ftype →
      t64_verify_record size nextOff r fixes
        = ({ r with status := t64_status_t.skipped }, fixes))
    ∧ (∀ (img : t64_image_t) (i : Nat) (h : i < img.records.length),
        0x40 + 32 * img.records.length ≤ img.data.length →
        (img.records.get ⟨i, h⟩).filename.length ≤ 0x10 →
        (img.records.get ⟨i, h⟩).offset < 4294967296 →
        (t64_write img).getD (0x40 + 32 * i + 0x00) 0 = (img.records.get ⟨i, h⟩).c64s_ftype
        ∧ (t64_write img).getD (0x40 + 32 * i + 0x01) 0 = (img.records.get ⟨i, h⟩).c1541_ftype
        ∧ (t64_write img).getD (0x40 + 32 * i + 0x02) 0
            = (img.records.get ⟨i, h⟩).start_addr % 256
        ∧ (t64_write img).getD (0x40 + 32 * i + 0x03) 0
            = (img.records.get ⟨i, h⟩).start_addr / 256 % 256
        ∧ (t64_write img).getD (0x40 + 32 * i + 0x04) 0
            = (img.records.get ⟨i, h⟩).real_end_addr % 256
        ∧ (t64_write img).getD (0x40 + 32 * i + 0x05) 0
            = (img.records.get ⟨i, h⟩).real_end_addr / 256 % 256
        ∧ (t64_write img).getD (0x40 + 32 * i + 0x08) 0 = (img.records.get ⟨i, h⟩).offset % 256
        ∧ (t64_write img).getD (0x40 + 32 * i + 0x09) 0
            = (img.records.get ⟨i, h⟩).offset / 256 % 256
        ∧ (t64_write img).getD (0x40 + 32 * i + 0x0a) 0
            = (img.records.get ⟨i, h⟩).offset / 65536 % 256
        ∧ (t64_write img).getD (0x40 + 32 * i + 0x0b) 0
            = (img.records.get ⟨i, h⟩).offset / 16777216 % 256
        ∧ (∀ k, k < (img.records.get ⟨i, h⟩).filename.length →
            (t64_write img).getD (0x40 + 32 * i + 0x10 + k) 0
              = (img.records.get ⟨i, h⟩).filename.getD k 0)) := by
  constructor
  · intro size nextOff r fixes hsnap
    simp only [t64_verify_record, if_pos hsnap]
  · intro img i h hb hf hoff
    unfold t64_write
    exact t64_write_records_slot_bytes img.records (t64_write_header img) 0x40 i h
      (by rw [t64_write_header_length]; omega) hf hoff

/-- A concrete snapshot record (c64s file type 2) used by the
`t64_snapshot_skip_serialize` witness. -/
def snapRecord : t64_record_t := ⟨[65], 0x60, 0x1000, 0x2000, 0x34, 2, 0x07, 0, t64_status_t.ok⟩

/-- A concrete one-record image around `snapRecord`. -/
def snapImage : t64_image_t :=
  ⟨[], List.replicate 24 32, List.replicate 0x60 0, 0x60, [snapRecord], 1, 1, 0x101, 0⟩

/-- Witness for `t64_snapshot_skip_serialize`: the snapshot record is only
marked skipped (keeping its invalid C1541 type byte 0x07), and the writer
still stores its type byte and corrected end address in slot 0. -/
theorem t64_snapshot_skip_serialize_witness :
    t64_verify_record 0x60 none snapRecord 0
      = ({ snapRecord with status := t64_status_t.skipped }, 0)
    ∧ (t64_write snapImage).getD (0x40 + 32 * 0 + 0x00) 0 = 2
    ∧ (t64_write snapImage).getD (0x40 + 32 * 0 + 0x04) 0 = 0x34 := by
  refine ⟨?_, ?_, ?_⟩
  · exact t64_snapshot_skip_serialize.1 0x60 none snapRecord 0 (by decide)
  · have h := (t64_snapshot_skip_serialize.2 snapImage 0 (by decide) (by decide)
      (by decide) (by decide)).1
    rw [h]; decide
  · have h := (t64_snapshot_skip_serialize.2 snapImage 0 (by decide) (by decide)
      (by decide) (by decide)).2.2.2.2.1
    rw [h]; decide


/-- Strict version of the `compar_index` ordering. -/
def compar_index_lt (r1 r2 : t64_record_t) : Prop := r1.index < r2.index

instance : IsAntisymm t64_record_t compar_index_lt :=
  ⟨fun _ _ h1 h2 => absurd (Nat.lt_trans h1 h2) (Nat.lt_irrefl _)⟩

/-- Strict version of the `compar_offset` ordering. -/
def compar_offset_lt (r1 r2 : t64_record_t) : Prop := r1.offset < r2.offset

instance : IsAntisymm t64_record_t compar_offset_lt :=
  ⟨fun _ _ h1 h2 => absurd (Nat.lt_trans h1 h2) (Nat.lt_irrefl _)⟩

instance : IsAntisymm Nat (· < ·) :=
  ⟨fun _ _ h1 h2 => absurd (Nat.lt_trans h1 h2) (Nat.lt_irrefl _)⟩

/-- The record fields `t64_verify` never writes: index, filename, data
offset, start address and declared end address. -/
def recFrame (r : t64_record_t) : Nat × List Nat × Nat × Nat × Nat :=
  (r.index, r.filename, r.offset, r.start_addr, r.end_addr)

/-- Strict index order on projected record frames. -/
def frame_lt (p q : Nat × List Nat × Nat × Nat × Nat) : Prop := p.1 < q.1

instance : IsAntisymm (Nat × List Nat × Nat × Nat × Nat) frame_lt :=
  ⟨fun _ _ h1 h2 => absurd (Nat.lt_trans h1 h2) (Nat.lt_irrefl _)⟩

theorem t64_verify_record_frame (size : Nat) (nextOff : Option Nat) (r : t64_record_t)
    (fixes : Nat) :
    recFrame ((t64_verify_record size nextOff r fixes).1) = recFrame r := by
  simp only [t64_verify_record, t64_verify_ftype, t64_verify_endaddr, recFrame]
  split_ifs <;> rfl

theorem t64_verify_records_map_frame (size : Nat) (l : List t64_record_t) : ∀ fixes,
    ((t64_verify_records size l fixes).1).map recFrame = l.map recFrame := by
  induction l with
  | nil => intro fixes; rfl
  | cons r rest ih =>
    intro fixes
    unfold t64_verify_records
    simp only [List.map_cons, ih, t64_verify_record_frame]

theorem map_index_of_map_frame (l1 l2 : List t64_record_t)
    (h : l1.map recFrame = l2.map recFrame) :
    l1.map (fun r => r.index) = l2.map (fun r => r.index) := by
  have e : ∀ l : List t64_record_t,
      l.map (fun r => r.index) = (l.map recFrame).map (fun p => p.1) := by
    intro l; rw [List.map_map]; rfl
  rw [e, e, h]

theorem map_offset_of_map_frame (l1 l2 : List t64_record_t)
    (h : l1.map recFrame = l2.map recFrame) :
    l1.map (fun r => r.offset) = l2.map (fun r => r.offset) := by
  have e : ∀ l : List t64_record_t,
      l.map (fun r => r.offset) = (l.map recFrame).map (fun p => p.2.2.1) := by
    intro l; rw [List.map_map]; rfl
  rw [e, e, h]

theorem t64_verify_header_fields (img : t64_image_t) :
    (t64_verify_header img).records = img.records
    ∧ (t64_verify_header img).data = img.data
    ∧ (t64_verify_header img).size = img.size
    ∧ (t64_verify_header img).magic = img.magic
    ∧ (t64_verify_header img).tapename = img.tapename
    ∧ (t64_verify_header img).version = img.version := by
  simp only [t64_verify_header]
  split_ifs <;> exact ⟨rfl, rfl, rfl, rfl, rfl, rfl⟩

theorem t64_verify_records_eq (img : t64_image_t) :
    (t64_verify img).records = List.insertionSort compar_index_le
      (t64_verify_records (t64_verify_header img).size
        (List.insertionSort compar_offset_le (t64_verify_header img).records)
        (t64_verify_header img).fixes).1 := rfl

theorem t64_verify_map_frame_perm (img : t64_image_t) :
    (((t64_verify img).records).map recFrame).Perm (img.records.map recFrame) := by
  rw [t64_verify_records_eq, (t64_verify_header_fields img).1]
  refine ((List.perm_insertionSort compar_index_le _).map _).trans ?_
  rw [t64_verify_records_map_frame]
  exact (List.perm_insertionSort compar_offset_le _).map _

theorem t64_verify_map_index_perm (img : t64_image_t) :
    (((t64_verify img).records).map (fun r => r.index)).Perm
      (img.records.map (fun r => r.index)) := by
  rw [t64_verify_records_eq, (t64_verify_header_fields img).1]
  refine ((List.perm_insertionSort compar_index_le _).map _).trans ?_
  rw [map_index_of_map_frame _ _ (t64_verify_records_map_frame _ _ _)]
  exact (List.perm_insertionSort compar_offset_le _).map _

theorem sorted_index_lt_of_le_nodup (l : List t64_record_t)
    (hs : l.Pairwise compar_index_le) (hn : (l.map (fun r => r.index)).Nodup) :
    l.Pairwise compar_index_lt := by
  have hne : l.Pairwise (fun a b => a.index ≠ b.index) := List.pairwise_map.mp hn
  exact (hs.and hne).imp (fun h => Nat.lt_of_le_of_ne h.1 h.2)

theorem canonical_map_index (l : List t64_record_t)
    (h : ∀ i : Fin l.length, (l.get i).index = i.val) :
    l.map (fun r => r.index) = List.range l.length := by
  apply List.ext_getElem
  · simp
  · intro i h1 h2
    have h3 : i < l.length := by simpa using h1
    have h4 := h ⟨i, h3⟩
    simp only [List.getElem_map, List.getElem_range]
    rw [List.get_eq_getElem] at h4
    exact h4

theorem sorted_lt_of_map_index_range (l : List t64_record_t) (n : Nat)
    (h : l.map (fun r => r.index) = List.range n) :
    l.Pairwise compar_index_lt := by
  have h1 : (l.map (fun r => r.index)).Pairwise (· < ·) := by
    rw [h]; exact List.pairwise_lt_range n
  have h2 : l.Pairwise (fun a b => a.index < b.index) := List.pairwise_map.mp h1
  exact h2.imp (fun h3 => h3)

theorem t64_verify_sorted_index_lt (img : t64_image_t)
    (h : ∀ i : Fin img.records.length, (img.records.get i).index = i.val) :
    (t64_verify img).records.Pairwise compar_index_lt := by
  have hrange := canonical_map_index img.records h
  have hs : (t64_verify img).records.Pairwise compar_index_le := by
    rw [t64_verify_records_eq]
    exact List.sorted_insertionSort compar_index_le _
  have hn : ((t64_verify img).records.map (fun r => r.index)).Nodup := by
    refine ((t64_verify_map_index_perm img).symm).nodup ?_
    rw [hrange]
    exact List.nodup_range _
  exact sorted_index_lt_of_le_nodup _ hs hn

/-- C4: with records numbered by their directory position (the invariant
`t64_open` establishes), the engine's internal sort by `data_offset`
followed by the restoring sort by `index` is a round-trip that reproduces
the original parse order, and the record sequence after `t64_verify` is in
the same index order as before the engine ran. -/
theorem t64_verify_order_roundtrip (img : t64_image_t)
    (h : ∀ i : Fin img.records.length, (img.records.get i).index = i.val) :
    List.insertionSort compar_index_le
        (List.insertionSort compar_offset_le img.records) = img.records
    ∧ (t64_verify img).records.map (fun r => r.index)
        = img.records.map (fun r => r.index) := by
  have hrange := canonical_map_index img.records h
  have hlsorted : img.records.Pairwise compar_index_lt :=
    sorted_lt_of_map_index_range _ _ hrange
  constructor
  · have hperm : (List.insertionSort compar_index_le
        (List.insertionSort compar_offset_le img.records)).Perm img.records :=
      (List.perm_insertionSort _ _).trans (List.perm_insertionSort _ _)
    have hs1 : (List.insertionSort compar_index_le
        (List.insertionSort compar_offset_le img.records)).Pairwise compar_index_le :=
      List.sorted_insertionSort _ _
    have hnodup : ((List.insertionSort compar_index_le
        (List.insertionSort compar_offset_le img.records)).map (fun r => r.index)).Nodup := by
      refine ((hperm.map (fun r => r.index)).symm).nodup ?_
      rw [hrange]
      exact List.nodup_range _
    exact List.eq_of_perm_of_sorted hperm
      (sorted_index_lt_of_le_nodup _ hs1 hnodup) hlsorted
  · have hperm2 := t64_verify_map_index_perm img
    have hs : (t64_verify img).records.Pairwise compar_index_lt :=
      t64_verify_sorted_index_lt img h
    have hmap1 : ((t64_verify img).records.map (fun r => r.index)).Pairwise (· < ·) :=
      List.pairwise_map.mpr (hs.imp (fun h3 => h3))
    have hmap2 : (img.records.map (fun r => r.index)).Pairwise (· < ·) := by
      rw [hrange]
      exact List.pairwise_lt_range _
    exact List.eq_of_perm_of_sorted hperm2 hmap1 hmap2

/-- A two-record image whose data offsets are out of directory order, used
by the `t64_verify_order_roundtrip` witness. -/
def roundtripImage : t64_image_t :=
  ⟨[], [], [], 0x90,
    [⟨[], 0x80, 0, 0x10, 0, 0, 0x82, 0, t64_status_t.ok⟩,
     ⟨[], 0x60, 0, 0x20, 0, 0, 0x82, 1, t64_status_t.ok⟩], 2, 2, 0x101, 0⟩

/-- Witness for `t64_verify_order_roundtrip` on a container whose offset
sort genuinely permutes the records. -/
theorem t64_verify_order_roundtrip_witness :
    List.insertionSort compar_index_le
        (List.insertionSort compar_offset_le roundtripImage.records) = roundtripImage.records
    ∧ (t64_verify roundtripImage).records.map (fun r => r.index)
        = roundtripImage.records.map (fun r => r.index) :=
  t64_verify_order_roundtrip roundtripImage (by decide)

theorem t64_verify_pass_fields (img : t64_image_t) :
    (t64_verify img).data = img.data ∧ (t64_verify img).size = img.size
    ∧ (t64_verify img).magic = img.magic ∧ (t64_verify img).tapename = img.tapename
    ∧ (t64_verify img).version = img.version :=
  ⟨(t64_verify_header_fields img).2.1, (t64_verify_header_fields img).2.2.1,
    (t64_verify_header_fields img).2.2.2.1, (t64_verify_header_fields img).2.2.2.2.1,
    (t64_verify_header_fields img).2.2.2.2.2⟩

/-- C10: `t64_verify` never mutates the raw byte buffer, the declared
size, the magic, the tape name or the version, and (with records numbered
by directory position) never changes any record's filename, data offset,
start address or declared end address - positionally, the whole
`recFrame` projection of the record list is preserved.  Its only writes
are the record counters, the fix counter, and per-record
`real_end_addr` / `c1541_ftype` / `status`; bytes reach the buffer only in
`t64_write`. -/
theorem t64_verify_frame_effect (img : t64_image_t)
    (h : ∀ i : Fin img.records.length, (img.records.get i).index = i.val) :
    (t64_verify img).data = img.data
    ∧ (t64_verify img).size = img.size
    ∧ (t64_verify img).magic = img.magic
    ∧ (t64_verify img).tapename = img.tapename
    ∧ (t64_verify img).version = img.version
    ∧ (t64_verify img).records.map recFrame = img.records.map recFrame := by
  refine ⟨(t64_verify_pass_fields img).1, (t64_verify_pass_fields img).2.1,
    (t64_verify_pass_fields img).2.2.1, (t64_verify_pass_fields img).2.2.2.1,
    (t64_verify_pass_fields img).2.2.2.2, ?_⟩
  have hperm := t64_verify_map_frame_perm img
  have hs := t64_verify_sorted_index_lt img h
  have hmap1 : ((t64_verify img).records.map recFrame).Pairwise frame_lt :=
    List.pairwise_map.mpr (hs.imp (fun h3 => h3))
  have hrange := canonical_map_index img.records h
  have hlsorted : img.records.Pairwise compar_index_lt :=
    sorted_lt_of_map_index_range _ _ hrange
  have hmap2 : (img.records.map recFrame).Pairwise frame_lt :=
    List.pairwise_map.mpr (hlsorted.imp (fun h3 => h3))
  exact List.eq_of_perm_of_sorted hperm hmap1 hmap2

/-- A two-record image (offsets out of order, one record with a bad type
byte and a bad end address) for the `t64_verify_frame_effect` witness. -/
def frameImage : t64_image_t :=
  ⟨[5, 6], List.replicate 24 32, [5, 6], 0x90,
    [⟨[1, 2], 0x80, 3, 0x10, 0, 0, 0x07, 0, t64_status_t.ok⟩,
     ⟨[3, 4], 0x60, 0, 0x99, 0, 0, 0x82, 1, t64_status_t.ok⟩], 2, 2, 0x101, 0⟩

/-- Witness for `t64_verify_frame_effect`: buffer, header strings and all
`recFrame` fields survive a verify pass that fixes both records. -/
theorem t64_verify_frame_effect_witness :
    (t64_verify frameImage).data = frameImage.data
    ∧ (t64_verify frameImage).size = frameImage.size
    ∧ (t64_verify frameImage).magic = frameImage.magic
    ∧ (t64_verify frameImage).tapename = frameImage.tapename
    ∧ (t64_verify frameImage).version = frameImage.version
    ∧ (t64_verify frameImage).records.map recFrame = frameImage.records.map recFrame :=
  t64_verify_frame_effect frameImage (by decide)

theorem t64_verify_record_offset (size : Nat) (nextOff : Option Nat) (r : t64_record_t)
    (fixes : Nat) :
    ((t64_verify_record size nextOff r fixes).1).offset = r.offset :=
  congrArg (fun p => p.2.2.1) (t64_verify_record_frame size nextOff r fixes)

theorem t64_verify_ftype_c64s (r : t64_record_t) (f : Nat) :
    ((t64_verify_ftype r f).1).c64s_ftype = r.c64s_ftype := by
  simp only [t64_verify_ftype]
  split_ifs <;> rfl

theorem t64_verify_ftype_post (r : t64_record_t) (f : Nat) :
    0x80 ≤ ((t64_verify_ftype r f).1).c1541_ftype
      ∧ ((t64_verify_ftype r f).1).c1541_ftype < 0x85 := by
  simp only [t64_verify_ftype]
  split_ifs with h
  · exact ⟨by norm_num, by norm_num⟩
  · push_neg at h
    exact ⟨h.1, h.2⟩

theorem t64_verify_ftype_of_range (r : t64_record_t) (f : Nat)
    (h1 : 0x80 ≤ r.c1541_ftype) (h2 : r.c1541_ftype < 0x85) :
    t64_verify_ftype r f = (r, f) := by
  simp only [t64_verify_ftype]
  rw [if_neg (by omega)]

theorem t64_verify_endaddr_c64s (size : Nat) (nextOff : Option Nat) (r : t64_record_t)
    (f : Nat) :
    ((t64_verify_endaddr size nextOff r f).1).c64s_ftype = r.c64s_ftype := by
  simp only [t64_verify_endaddr]
  split_ifs <;> rfl

theorem t64_verify_endaddr_c1541 (size : Nat) (nextOff : Option Nat) (r : t64_record_t)
    (f : Nat) :
    ((t64_verify_endaddr size nextOff r f).1).c1541_ftype = r.c1541_ftype := by
  simp only [t64_verify_endaddr]
  split_ifs <;> rfl

theorem t64_verify_endaddr_branch_eq (size : Nat) (nextOff : Option Nat) (r : t64_record_t)
    (f : Nat) (h : rec_size r = act_size size nextOff r) :
    t64_verify_endaddr size nextOff r f = ({ r with real_end_addr := r.end_addr }, f) := by
  simp only [t64_verify_endaddr]
  rw [if_neg (by simpa using h)]

theorem t64_verify_endaddr_branch_tol (size : Nat) (nextOff : Option Nat) (r : t64_record_t)
    (f : Nat) (h1 : rec_size r ≠ act_size size nextOff r)
    (h2 : nextOff = none ∧ rec_size r < act_size size nextOff r) :
    t64_verify_endaddr size nextOff r f = (r, f) := by
  simp only [t64_verify_endaddr]
  rw [if_pos h1, if_pos h2]

theorem t64_verify_endaddr_branch_fix (size : Nat) (nextOff : Option Nat) (r : t64_record_t)
    (f : Nat) (h1 : rec_size r ≠ act_size size nextOff r)
    (h2 : ¬(nextOff = none ∧ rec_size r < act_size size nextOff r)) :
    t64_verify_endaddr size nextOff r f
      = ({ r with status := t64_status_t.fixed,
                  real_end_addr := (r.start_addr + act_size size nextOff r) % U64 % U16 },
         f + 1) := by
  simp only [t64_verify_endaddr]
  rw [if_pos h1, if_neg h2]

theorem t64_verify_endaddr_fst_idem (size : Nat) (nextOff : Option Nat) (r : t64_record_t)
    (f g : Nat) :
    (t64_verify_endaddr size nextOff ((t64_verify_endaddr size nextOff r f).1) g).1
      = (t64_verify_endaddr size nextOff r f).1 := by
  by_cases h1 : rec_size r = act_size size nextOff r
  · have h1b : rec_size ({ r with real_end_addr := r.end_addr } : t64_record_t)
        = act_size size nextOff ({ r with real_end_addr := r.end_addr } : t64_record_t) := h1
    rw [t64_verify_endaddr_branch_eq size nextOff r f h1]
    dsimp only
    rw [t64_verify_endaddr_branch_eq size nextOff _ g h1b]
  · by_cases h2 : nextOff = none ∧ rec_size r < act_size size nextOff r
    · rw [t64_verify_endaddr_branch_tol size nextOff r f h1 h2]
      dsimp only
      rw [t64_verify_endaddr_branch_tol size nextOff r g h1 h2]
    · have h1b : rec_size ({ r with status := t64_status_t.fixed, real_end_addr := (r.start_addr + act_size size nextOff r) % U64 % U16 } : t64_record_t) ≠ act_size size nextOff ({ r with status := t64_status_t.fixed, real_end_addr := (r.start_addr + act_size size nextOff r) % U64 % U16 } : t64_record_t) := h1
      have h2b : ¬(nextOff = none ∧ rec_size ({ r with status := t64_status_t.fixed, real_end_addr := (r.start_addr + act_size size nextOff r) % U64 % U16 } : t64_record_t) < act_size size nextOff ({ r with status := t64_status_t.fixed, real_end_addr := (r.start_addr + act_size size nextOff r) % U64 % U16 } : t64_record_t)) := h2
      rw [t64_verify_endaddr_branch_fix size nextOff r f h1 h2]
      dsimp only
      rw [t64_verify_endaddr_branch_fix size nextOff _ g h1b h2b]
      rfl

theorem t64_verify_record_fst_idem (size : Nat) (nextOff : Option Nat) (r : t64_record_t)
    (f g : Nat) :
    (t64_verify_record size nextOff ((t64_verify_record size nextOff r f).1) g).1
      = (t64_verify_record size nextOff r f).1 := by
  by_cases hsnap : 1 < r.c64s_ftype
  · have e1 : t64_verify_record size nextOff r f
        = ({ r with status := t64_status_t.skipped }, f) := by
      simp only [t64_verify_record]
      rw [if_pos hsnap]
    rw [e1]
    simp only [t64_verify_record]
    rw [if_pos (show (1 : Nat) < ({ r with status := t64_status_t.skipped } :
      t64_record_t).c64s_ftype from hsnap)]
  · have e1 : t64_verify_record size nextOff r f
        = t64_verify_endaddr size nextOff (t64_verify_ftype r f).1 (t64_verify_ftype r f).2 := by
      simp only [t64_verify_record]
      rw [if_neg hsnap]
    have e2 : t64_verify_record size nextOff
        ((t64_verify_endaddr size nextOff (t64_verify_ftype r f).1 (t64_verify_ftype r f).2).1) g
        = t64_verify_endaddr size nextOff
            ((t64_verify_endaddr size nextOff (t64_verify_ftype r f).1
              (t64_verify_ftype r f).2).1) g := by
      have hc : ¬ 1 < ((t64_verify_endaddr size nextOff (t64_verify_ftype r f).1
          (t64_verify_ftype r f).2).1).c64s_ftype := by
        rw [t64_verify_endaddr_c64s, t64_verify_ftype_c64s]
        exact hsnap
      have hr : 0x80 ≤ ((t64_verify_endaddr size nextOff (t64_verify_ftype r f).1
            (t64_verify_ftype r f).2).1).c1541_ftype
          ∧ ((t64_verify_endaddr size nextOff (t64_verify_ftype r f).1
            (t64_verify_ftype r f).2).1).c1541_ftype < 0x85 := by
        rw [t64_verify_endaddr_c1541]
        exact t64_verify_ftype_post r f
      simp only [t64_verify_record]
      rw [if_neg hc, t64_verify_ftype_of_range _ _ hr.1 hr.2]
    rw [e1, e2]
    exact t64_verify_endaddr_fst_idem size nextOff (t64_verify_ftype r f).1
      (t64_verify_ftype r f).2 g

theorem t64_verify_records_nextOff (size : Nat) (rest : List t64_record_t) (x : Nat) :
    (match (t64_verify_records size rest x).1 with
      | [] => (none : Option Nat)
      | r2 :: _ => some r2.offset)
      = (match rest with
      | [] => (none : Option Nat)
      | r2 :: _ => some r2.offset) := by
  cases rest with
  | nil => rfl
  | cons r2 rest2 =>
    simp only [t64_verify_records]
    rw [t64_verify_record_offset]

theorem t64_verify_records_fst_idem (size : Nat) (l : List t64_record_t) : ∀ f g,
    (t64_verify_records size ((t64_verify_records size l f).1) g).1
      = (t64_verify_records size l f).1 := by
  induction l with
  | nil => intro f g; rfl
  | cons r rest ih =>
    intro f g
    have hunf : ∀ (a : t64_record_t) (tl : List t64_record_t) (y : Nat),
        (t64_verify_records size (a :: tl) y).1
          = (t64_verify_record size (match tl with
              | [] => (none : Option Nat)
              | r2 :: _ => some r2.offset) a y).1
            :: (t64_verify_records size tl (t64_verify_record size (match tl with
              | [] => (none : Option Nat)
              | r2 :: _ => some r2.offset) a y).2).1 := fun a tl y => rfl
    rw [hunf r rest f, hunf, t64_verify_records_nextOff, t64_verify_record_fst_idem, ih]

theorem sorted_offset_lt_of_le_nodup (l : List t64_record_t)
    (hs : l.Pairwise compar_offset_le) (hn : (l.map (fun r => r.offset)).Nodup) :
    l.Pairwise compar_offset_lt := by
  have hne : l.Pairwise (fun a b => a.offset ≠ b.offset) := List.pairwise_map.mp hn
  exact (hs.and hne).imp (fun h => Nat.lt_of_le_of_ne h.1 h.2)

theorem pairwise_offset_lt_of_map (l1 l2 : List t64_record_t)
    (h : l1.map (fun r => r.offset) = l2.map (fun r => r.offset))
    (hs : l2.Pairwise compar_offset_lt) : l1.Pairwise compar_offset_lt := by
  have h1 : (l2.map (fun r => r.offset)).Pairwise (· < ·) :=
    List.pairwise_map.mpr (hs.imp (fun h3 => h3))
  rw [← h] at h1
  have h2 : l1.Pairwise (fun a b => a.offset < b.offset) := List.pairwise_map.mp h1
  exact h2.imp (fun h3 => h3)

theorem t64_verify_records_second (sz f2 : Nat) (l : List t64_record_t)
    (hoff : (l.map (fun r => r.offset)).Nodup) (f1 : Nat) :
    List.insertionSort compar_index_le
      (t64_verify_records sz
        (List.insertionSort compar_offset_le
          (List.insertionSort compar_index_le
            (t64_verify_records sz (List.insertionSort compar_offset_le l) f1).1))
        f2).1
      = List.insertionSort compar_index_le
          (t64_verify_records sz (List.insertionSort compar_offset_le l) f1).1 := by
  have hmapP : ((t64_verify_records sz (List.insertionSort compar_offset_le l) f1).1).map
        (fun r => r.offset)
      = (List.insertionSort compar_offset_le l).map (fun r => r.offset) :=
    map_offset_of_map_frame _ _ (t64_verify_records_map_frame sz _ f1)
  have hSnodup : ((List.insertionSort compar_offset_le l).map (fun r => r.offset)).Nodup :=
    (((List.perm_insertionSort compar_offset_le l).map (fun r => r.offset)).symm).nodup hoff
  have hSlt : (List.insertionSort compar_offset_le l).Pairwise compar_offset_lt :=
    sorted_offset_lt_of_le_nodup _ (List.sorted_insertionSort _ _) hSnodup
  have hPlt : ((t64_verify_records sz (List.insertionSort compar_offset_le l) f1).1).Pairwise
      compar_offset_lt :=
    pairwise_offset_lt_of_map _ _ hmapP hSlt
  have hPnodup : (((t64_verify_records sz (List.insertionSort compar_offset_le l) f1).1).map
      (fun r => r.offset)).Nodup := by
    rw [hmapP]; exact hSnodup
  have hperm : (List.insertionSort compar_offset_le
      (List.insertionSort compar_index_le
        (t64_verify_records sz (List.insertionSort compar_offset_le l) f1).1)).Perm
      ((t64_verify_records sz (List.insertionSort compar_offset_le l) f1).1) :=
    (List.perm_insertionSort _ _).trans (List.perm_insertionSort _ _)
  have hRnodup : ((List.insertionSort compar_offset_le
      (List.insertionSort compar_index_le
        (t64_verify_records sz (List.insertionSort compar_offset_le l) f1).1)).map
      (fun r => r.offset)).Nodup :=
    ((hperm.map (fun r => r.offset)).symm).nodup hPnodup
  have hRlt := sorted_offset_lt_of_le_nodup _ (List.sorted_insertionSort compar_offset_le _)
    hRnodup
  have hSR : List.insertionSort compar_offset_le
      (List.insertionSort compar_index_le
        (t64_verify_records sz (List.insertionSort compar_offset_le l) f1).1)
      = (t64_verify_records sz (List.insertionSort compar_offset_le l) f1).1 :=
    List.eq_of_perm_of_sorted hperm hRlt hPlt
  rw [hSR, t64_verify_records_fst_idem]

theorem t64_verify_counts (img : t64_image_t) :
    (t64_verify img).rec_max = (if img.rec_max = 0 then 1 else img.rec_max)
    ∧ (t64_verify img).rec_used = (if img.rec_used = 0 then 1 else img.rec_used) := by
  show (t64_verify_header img).rec_max = _ ∧ (t64_verify_header img).rec_used = _
  simp only [t64_verify_header]
  split_ifs <;> simp_all

theorem t64_verify_header_of_pos (a : t64_image_t) (h1 : a.rec_max ≠ 0) (h2 : a.rec_used ≠ 0) :
    t64_verify_header a = a := by
  simp only [t64_verify_header]
  rw [if_neg h1, if_neg h2]

theorem t64_image_t_ext (a b : t64_image_t)
    (h1 : a.magic = b.magic) (h2 : a.tapename = b.tapename) (h3 : a.data = b.data)
    (h4 : a.size = b.size) (h5 : a.records = b.records) (h6 : a.rec_max = b.rec_max)
    (h7 : a.rec_used = b.rec_used) (h8 : a.version = b.version) (h9 : a.fixes = b.fixes) :
    a = b := by
  cases a
  cases b
  simp_all

/-- C2 (amended): on a container with pairwise-distinct data offsets,
running `t64_verify` a second time right after a first run leaves every
header field and every record field identical to its value after the first
run, except the fix counter: the second run re-detects each end-address
mismatch (the declared `end_addr` is never rewritten in memory) and counts
it again, so the delta is zero only when no end-address fix is
re-detected. -/
theorem t64_verify_idem_except_fixes (img : t64_image_t)
    (hoff : (img.records.map (fun r => r.offset)).Nodup) :
    t64_verify (t64_verify img)
      = { t64_verify img with fixes := (t64_verify (t64_verify img)).fixes } := by
  have hmax : (t64_verify img).rec_max ≠ 0 := by
    rw [(t64_verify_counts img).1]
    split_ifs with h
    · exact Nat.one_ne_zero
    · exact h
  have hused : (t64_verify img).rec_used ≠ 0 := by
    rw [(t64_verify_counts img).2]
    split_ifs with h
    · exact Nat.one_ne_zero
    · exact h
  have hnoop : t64_verify_header (t64_verify img) = t64_verify img :=
    t64_verify_header_of_pos _ hmax hused
  have hrec2 : (t64_verify (t64_verify img)).records = (t64_verify img).records := by
    rw [t64_verify_records_eq (t64_verify img), hnoop]
    have e2 : (t64_verify img).records
        = List.insertionSort compar_index_le
          (t64_verify_records (t64_verify_header img).size
            (List.insertionSort compar_offset_le img.records)
            (t64_verify_header img).fixes).1 := by
      rw [t64_verify_records_eq img, (t64_verify_header_fields img).1]
    have e3 : (t64_verify img).size = (t64_verify_header img).size := rfl
    rw [e3, e2]
    exact t64_verify_records_second _ _ img.records hoff _
  apply t64_image_t_ext
  · exact (t64_verify_pass_fields (t64_verify img)).2.2.1
  · exact (t64_verify_pass_fields (t64_verify img)).2.2.2.1
  · exact (t64_verify_pass_fields (t64_verify img)).1
  · exact (t64_verify_pass_fields (t64_verify img)).2.1
  · exact hrec2
  · rw [(t64_verify_counts (t64_verify img)).1, if_neg hmax]
  · rw [(t64_verify_counts (t64_verify img)).2, if_neg hused]
  · exact (t64_verify_pass_fields (t64_verify img)).2.2.2.2
  · rfl

/-- A one-record image with a mismatched end address (declared size 0x20,
actual size 0x10) for the C2 counterexample and witness. -/
def idemImage : t64_image_t :=
  ⟨[], [], [], 0x70, [⟨[], 0x60, 0, 0x20, 0, 0, 0x82, 0, t64_status_t.ok⟩], 1, 1, 0x101, 0⟩

/-- Counterexample to C2 as stated: the first run fixes the mismatched end
address (one fix), and the second run re-detects the same mismatch -
`end_addr` is unchanged in memory - and counts it again, so the second
run's fix delta is 1, not 0, and the fix counter field differs. -/
theorem t64_verify_second_run_cex :
    (t64_verify idemImage).fixes = 1
    ∧ (t64_verify (t64_verify idemImage)).fixes = 2 := by
  decide

/-- Witness for `t64_verify_idem_except_fixes` at `idemImage` (distinct
offsets trivially): all fields except the re-counting fix counter agree
after the second run. -/
theorem t64_verify_idem_except_fixes_witness :
    t64_verify (t64_verify idemImage)
      = { t64_verify idemImage with fixes := (t64_verify (t64_verify idemImage)).fixes } :=
  t64_verify_idem_except_fixes idemImage (by decide)

/-- C5 (amended): the verify engine's header phase performs two clamps,
not three: `rec_max` raised to 1 when 0 and `rec_used` raised to 1 when 0,
each actual change counting exactly one fix.  The `rec_used ≤ rec_max`
clamp lives in `t64_parse_header` (open time), not in `t64_verify`, so
after `t64_verify` the invariant `rec_used ≤ rec_max` holds for every
container that already satisfied it on entry (in particular every opened
container), but not for arbitrary in-memory counts. -/
theorem t64_verify_header_clamps (img : t64_image_t) :
    (t64_verify_header img).rec_max = (if img.rec_max = 0 then 1 else img.rec_max)
    ∧ (t64_verify_header img).rec_used = (if img.rec_used = 0 then 1 else img.rec_used)
    ∧ (t64_verify_header img).fixes
        = img.fixes + (if img.rec_max = 0 then 1 else 0) + (if img.rec_used = 0 then 1 else 0)
    ∧ (t64_verify img).rec_max = (t64_verify_header img).rec_max
    ∧ (t64_verify img).rec_used = (t64_verify_header img).rec_used
    ∧ (img.rec_used ≤ img.rec_max →
        (t64_verify img).rec_used ≤ (t64_verify img).rec_max) := by
  refine ⟨?_, ?_, ?_, rfl, rfl, ?_⟩
  · simp only [t64_verify_header]
    split_ifs <;> simp_all
  · simp only [t64_verify_header]
    split_ifs <;> simp_all
  · simp only [t64_verify_header]
    split_ifs <;> simp_all
  · intro hle
    rw [(t64_verify_counts img).1, (t64_verify_counts img).2]
    split_ifs <;> omega

/-- An in-memory container with `rec_used` 5 exceeding `rec_max` 3 (five
snapshot records, so no record-level fix applies). -/
def countsImage : t64_image_t :=
  ⟨[], [], [], 0x200,
    [⟨[], 0xe0, 0, 0, 0, 2, 0x82, 0, t64_status_t.ok⟩,
     ⟨[], 0xf0, 0, 0, 0, 2, 0x82, 1, t64_status_t.ok⟩,
     ⟨[], 0x100, 0, 0, 0, 2, 0x82, 2, t64_status_t.ok⟩,
     ⟨[], 0x110, 0, 0, 0, 2, 0x82, 3, t64_status_t.ok⟩,
     ⟨[], 0x120, 0, 0, 0, 2, 0x82, 4, t64_status_t.ok⟩], 3, 5, 0x101, 0⟩

/-- Counterexample to C5 as stated: `t64_verify` has no
`rec_used ≤ rec_max` clamp, so a container entering the engine with used 5
and max 3 leaves it with used 5, max 3, zero fixes - the claimed third
clamp (and the unconditional post-repair invariant) does not exist in the
engine. -/
theorem t64_verify_counts_cex :
    (t64_verify countsImage).rec_used = 5
    ∧ (t64_verify countsImage).rec_max = 3
    ∧ (t64_verify countsImage).fixes = 0
    ∧ ¬ (t64_verify countsImage).rec_used ≤ (t64_verify countsImage).rec_max := by
  decide

/-- An empty in-memory container with both counters stored as zero. -/
def countsWitnessImage : t64_image_t := ⟨[], [], [], 0x40, [], 0, 0, 0x101, 0⟩

/-- Witness for `t64_verify_header_clamps`: both zero-count clamps apply,
each counting one fix, and the invariant holds since 0 ≤ 0 held on
entry. -/
theorem t64_verify_header_clamps_witness :
    (t64_verify_header countsWitnessImage).rec_max = 1
    ∧ (t64_verify_header countsWitnessImage).rec_used = 1
    ∧ (t64_verify_header countsWitnessImage).fixes = 2
    ∧ (t64_verify countsWitnessImage).rec_used ≤ (t64_verify countsWitnessImage).rec_max := by
  have h := t64_verify_header_clamps countsWitnessImage
  refine ⟨?_, ?_, ?_, h.2.2.2.2.2 (by decide)⟩
  · rw [h.1]
    decide
  · rw [h.2.1]
    decide
  · rw [h.2.2.1]
    decide

/-- A source program file handed to `t64_create`: its transcoded PETSCII
name (the ASCII-basename-to-PETSCII conversion is the external `petasc`
collaborator) and its raw bytes, whose first two bytes are the load
address. -/
structure prg_file_t where
  petname : List Nat
  bytes : List Nat
deriving DecidableEq

/-- The directory record `t64_create` builds for one input file at data
offset `off`: `start_addr` from the first two bytes little-endian,
`end_addr = (uint16_t)(len - 2 + start_addr)`, `real_end_addr = end_addr`,
C64S type 1 (normal file), C1541 type `CBMDOS_FILETYPE_PRG |
CBMDOS_CLOSED_MASK` = 0x82.  The C code stores the `size_t` append
position through a `uint32_t` cast.  `index` stays 0 (the memset of the
record never gets overwritten). -/
def t64_create_record (f : prg_file_t) (off : Nat) : t64_record_t :=
  { filename := f.petname
  , offset := off % 4294967296
  , start_addr := get_uint16 f.bytes 0
  , end_addr := (f.bytes.length - 2 + get_uint16 f.bytes 0) % U16
  , real_end_addr := (f.bytes.length - 2 + get_uint16 f.bytes 0) % U16
  , c64s_ftype := 1
  , c1541_ftype := 0x82
  , index := 0
  , status := t64_status_t.ok }

/-- The per-file loop of `t64_create`: append the file's content without
its 2-byte load address to the buffer, append the directory record, grow
the size. -/
def t64_create_add (files : List prg_file_t) (img : t64_image_t) : t64_image_t :=
  match files with
  | [] => img
  | f :: rest =>
    t64_create_add rest
      { img with
          data := img.data ++ f.bytes.drop 2,
          records := img.records ++ [t64_create_record f img.size],
          size := img.size + (f.bytes.length - 2) }

/-- Total size of the data region built by `t64_create`: each file
contributes its length minus the 2-byte load address. -/
def create_data_size (files : List prg_file_t) : Nat :=
  (files.map (fun f => f.bytes.length - 2)).sum

/-- The record list `t64_create` builds, with the running append offset. -/
def t64_create_records (files : List prg_file_t) (off : Nat) : List t64_record_t :=
  match files with
  | [] => []
  | f :: rest => t64_create_record f off :: t64_create_records rest (off + (f.bytes.length - 2))

/-- `t64_create` from t64.c on in-memory file contents (file reading and
the tape-name derivation from the destination basename are external
collaborators; the derived name is passed in).  The header and directory
area is allocated zeroed, files are appended in order, and the record
counters are set to the file count (through the C `uint16_t` cast).  The
`magic` and `version` fields are left untouched by the C code
(uninitialized memory from `t64_new`), modelled as zeros. -/
def t64_create (tapename : List Nat) (files : List prg_file_t) : t64_image_t :=
  let dir_size := files.length * 0x20
  let data_offset := 0x40 + dir_size
  let img0 : t64_image_t :=
    { magic := List.replicate 0x20 0
    , tapename := tapename
    , data := List.replicate data_offset 0
    , size := data_offset
    , records := []
    , rec_max := 0
    , rec_used := 0
    , version := 0
    , fixes := 0 }
  let img1 := t64_create_add files img0
  { img1 with rec_used := files.length % U16, rec_max := files.length % U16 }

theorem create_data_size_nil : create_data_size [] = 0 := rfl

theorem create_data_size_cons (f : prg_file_t) (rest : List prg_file_t) :
    create_data_size (f :: rest) = (f.bytes.length - 2) + create_data_size rest := by
  simp [create_data_size]

theorem t64_create_add_spec (files : List prg_file_t) : ∀ img : t64_image_t,
    (t64_create_add files img).data
        = img.data ++ (files.map (fun f => f.bytes.drop 2)).flatten
    ∧ (t64_create_add files img).size = img.size + create_data_size files
    ∧ (t64_create_add files img).records = img.records ++ t64_create_records files img.size
    ∧ (t64_create_add files img).magic = img.magic
    ∧ (t64_create_add files img).tapename = img.tapename
    ∧ (t64_create_add files img).rec_max = img.rec_max
    ∧ (t64_create_add files img).rec_used = img.rec_used
    ∧ (t64_create_add files img).version = img.version
    ∧ (t64_create_add files img).fixes = img.fixes := by
  induction files with
  | nil =>
    intro img
    simp [t64_create_add, t64_create_records, create_data_size]
  | cons f rest ih =>
    intro img
    unfold t64_create_add
    obtain ⟨h1, h2, h3, h4, h5, h6, h7, h8, h9⟩ := ih
      { img with
          data := img.data ++ f.bytes.drop 2,
          records := img.records ++ [t64_create_record f img.size],
          size := img.size + (f.bytes.length - 2) }
    refine ⟨?_, ?_, ?_, h4, h5, h6, h7, h8, h9⟩
    · rw [h1]
      dsimp only
      simp [List.append_assoc]
    · rw [h2]
      dsimp only
      rw [create_data_size_cons]
      omega
    · rw [h3]
      dsimp only
      simp only [t64_create_records, List.append_assoc, List.singleton_append]

/-- Default record used with `List.getD` in statements about the created
directory. -/
def blank_record : t64_record_t := ⟨[], 0, 0, 0, 0, 0, 0, 0, t64_status_t.ok⟩

/-- Default program file used with `List.getD`. -/
def blank_prg : prg_file_t := ⟨[], []⟩

theorem t64_create_records_length (files : List prg_file_t) : ∀ off,
    (t64_create_records files off).length = files.length := by
  induction files with
  | nil => intro off; rfl
  | cons f rest ih => intro off; simp [t64_create_records, ih]

theorem t64_create_records_getD (files : List prg_file_t) : ∀ off i, i < files.length →
    (t64_create_records files off).getD i blank_record
      = t64_create_record (files.getD i blank_prg)
          (off + create_data_size (files.take i)) := by
  induction files with
  | nil => intro off i h; simp at h
  | cons f rest ih =>
    intro off i h
    cases i with
    | zero => simp [t64_create_records, create_data_size]
    | succ i =>
      have hi : i < rest.length := by simpa using h
      simp only [t64_create_records, List.getD_cons_succ, List.take_succ_cons]
      rw [ih _ i hi, create_data_size_cons, ← Nat.add_assoc]

theorem t64_create_records_offset_mem (files : List prg_file_t) : ∀ off r,
    r ∈ t64_create_records files off →
    ∃ k, k ≤ create_data_size files ∧ r.offset = (off + k) % 4294967296 := by
  induction files with
  | nil => intro off r h; simp [t64_create_records] at h
  | cons f rest ih =>
    intro off r h
    rw [t64_create_records, List.mem_cons] at h
    rcases h with h | h
    · exact ⟨0, Nat.zero_le _, by rw [h]; simp [t64_create_record]⟩
    · obtain ⟨k, hk, hoffr⟩ := ih _ r h
      refine ⟨(f.bytes.length - 2) + k, ?_, ?_⟩
      · rw [create_data_size_cons]
        omega
      · rw [hoffr, ← Nat.add_assoc]

theorem t64_create_records_sorted (files : List prg_file_t) : ∀ off,
    off + create_data_size files < 4294967296 →
    (t64_create_records files off).Pairwise compar_offset_le := by
  induction files with
  | nil => intro off _; exact List.Pairwise.nil
  | cons f rest ih =>
    intro off hb
    rw [create_data_size_cons] at hb
    rw [t64_create_records]
    constructor
    · intro r hr
      obtain ⟨k, hk, hoffr⟩ := t64_create_records_offset_mem rest _ r hr
      show (t64_create_record f off).offset ≤ r.offset
      rw [hoffr]
      show off % 4294967296 ≤ _
      rw [Nat.mod_eq_of_lt (by omega), Nat.mod_eq_of_lt (by omega)]
      omega
    · exact ih _ (by omega)

theorem U16_eq : U16 = 65536 := rfl

theorem U64_eq : U64 = 18446744073709551616 := rfl

theorem t64_create_record_update_self (f : prg_file_t) (off : Nat) :
    ({ t64_create_record f off with
        real_end_addr := (t64_create_record f off).end_addr } : t64_record_t)
      = t64_create_record f off := rfl

theorem t64_create_record_verify_step (total : Nat) (nextOff : Option Nat) (f : prg_file_t)
    (off fixes : Nat)
    (_hlen2 : 2 ≤ f.bytes.length)
    (hnw : get_uint16 f.bytes 0 + (f.bytes.length - 2) < U16)
    (hact : act_size total nextOff (t64_create_record f off) = f.bytes.length - 2) :
    t64_verify_record total nextOff (t64_create_record f off) fixes
      = (t64_create_record f off, fixes) := by
  have hsnap : ¬ 1 < (t64_create_record f off).c64s_ftype := by
    show ¬ (1 : Nat) < 1
    omega
  have e1 : t64_verify_record total nextOff (t64_create_record f off) fixes
      = t64_verify_endaddr total nextOff (t64_create_record f off) fixes := by
    simp only [t64_verify_record]
    rw [if_neg hsnap, t64_verify_ftype_of_range _ _ (by norm_num [t64_create_record])
      (by norm_num [t64_create_record])]
  have hrec : rec_size (t64_create_record f off) = f.bytes.length - 2 := by
    have hE : (f.bytes.length - 2 + get_uint16 f.bytes 0) % U16
        = f.bytes.length - 2 + get_uint16 f.bytes 0 := by
      rw [U16_eq] at hnw ⊢
      exact Nat.mod_eq_of_lt (by omega)
    show ((f.bytes.length - 2 + get_uint16 f.bytes 0) % U16 + U64
        - get_uint16 f.bytes 0) % U64 = f.bytes.length - 2
    rw [hE, sub_mod_u64 _ _ (by omega) (by rw [U16_eq] at hnw; rw [U64_eq]; omega)]
    omega
  rw [e1, t64_verify_endaddr_branch_eq total nextOff _ fixes (hrec.trans hact.symm),
    t64_create_record_update_self]

theorem t64_create_records_verify (files : List prg_file_t) : ∀ off fixes total,
    total = off + create_data_size files →
    total < 4294967296 →
    (∀ f ∈ files, 2 ≤ f.bytes.length
      ∧ get_uint16 f.bytes 0 + (f.bytes.length - 2) < U16) →
    t64_verify_records total (t64_create_records files off) fixes
      = (t64_create_records files off, fixes) := by
  induction files with
  | nil => intro off fixes total _ _ _; rfl
  | cons f rest ih =>
    intro off fixes total h1 h2 h3
    obtain ⟨hf2, hfnw⟩ := h3 f (List.mem_cons_self f rest)
    rw [create_data_size_cons] at h1
    have hunf : ∀ (a : t64_record_t) (tl : List t64_record_t) (y : Nat),
        t64_verify_records total (a :: tl) y
          = ((t64_verify_record total (match tl with
              | [] => (none : Option Nat)
              | r2 :: _ => some r2.offset) a y).1
            :: (t64_verify_records total tl (t64_verify_record total (match tl with
              | [] => (none : Option Nat)
              | r2 :: _ => some r2.offset) a y).2).1,
            (t64_verify_records total tl (t64_verify_record total (match tl with
              | [] => (none : Option Nat)
              | r2 :: _ => some r2.offset) a y).2).2) := fun a tl y => rfl
    cases rest with
    | nil =>
      rw [t64_create_records, hunf]
      have hact : act_size total none (t64_create_record f off) = f.bytes.length - 2 := by
        show (total + U64 - off % 4294967296) % U64 = f.bytes.length - 2
        rw [Nat.mod_eq_of_lt (show off < 4294967296 by omega),
          sub_mod_u64 _ _ (by omega) (by rw [U64_eq]; omega)]
        simp [create_data_size] at h1
        omega
      rw [show t64_create_records [] (off + (f.bytes.length - 2)) = [] from rfl]
      rw [t64_create_record_verify_step total none f off fixes hf2 hfnw hact]
      rfl
    | cons g rest2 =>
      rw [t64_create_records, hunf]
      have hkpos : create_data_size (g :: rest2) = (g.bytes.length - 2) + create_data_size rest2 :=
        create_data_size_cons g rest2
      have hunf2 : t64_create_records (g :: rest2) (off + (f.bytes.length - 2))
          = t64_create_record g (off + (f.bytes.length - 2))
            :: t64_create_records rest2 (off + (f.bytes.length - 2) + (g.bytes.length - 2)) :=
        rfl
      rw [hunf2]
      have hact : act_size total (some ((t64_create_record g (off + (f.bytes.length - 2))).offset))
          (t64_create_record f off) = f.bytes.length - 2 := by
        show ((off + (f.bytes.length - 2)) % 4294967296 + U64 - off % 4294967296) % U64
          = f.bytes.length - 2
        rw [Nat.mod_eq_of_lt (show off < 4294967296 by omega),
          Nat.mod_eq_of_lt (show off + (f.bytes.length - 2) < 4294967296 by omega),
          sub_mod_u64 _ _ (by omega) (by rw [U64_eq]; omega)]
        omega
      rw [t64_create_record_verify_step total _ f off fixes hf2 hfnw hact]
      have hrest := ih (off + (f.bytes.length - 2)) fixes total (by rw [hkpos]; omega) h2
        (fun x hx => h3 x (List.mem_cons_of_mem f hx))
      rw [show t64_create_records (g :: rest2) (off + (f.bytes.length - 2))
          = t64_create_record g (off + (f.bytes.length - 2))
            :: t64_create_records rest2 (off + (f.bytes.length - 2) + (g.bytes.length - 2))
        from rfl] at hrest
      rw [hrest]

theorem create_data_size_append (a b : List prg_file_t) :
    create_data_size (a ++ b) = create_data_size a + create_data_size b := by
  simp [create_data_size]

theorem create_data_size_take_le (files : List prg_file_t) (i : Nat) :
    create_data_size (files.take i) ≤ create_data_size files := by
  conv_rhs => rw [← List.take_append_drop i files]
  rw [create_data_size_append]
  omega

theorem t64_create_fields (tapename : List Nat) (files : List prg_file_t) :
    (t64_create tapename files).rec_used = files.length % U16
    ∧ (t64_create tapename files).rec_max = files.length % U16
    ∧ (t64_create tapename files).size
        = 0x40 + files.length * 0x20 + create_data_size files
    ∧ (t64_create tapename files).data
        = List.replicate (0x40 + files.length * 0x20) 0
          ++ (files.map (fun f => f.bytes.drop 2)).flatten
    ∧ (t64_create tapename files).records
        = t64_create_records files (0x40 + files.length * 0x20)
    ∧ (t64_create tapename files).fixes = 0 := by
  have h := t64_create_add_spec files
    { magic := List.replicate 0x20 0
    , tapename := tapename
    , data := List.replicate (0x40 + files.length * 0x20) 0
    , size := 0x40 + files.length * 0x20
    , records := []
    , rec_max := 0
    , rec_used := 0
    , version := 0
    , fixes := 0 }
  exact ⟨rfl, rfl, h.2.1, h.1, h.2.2.1.trans (List.nil_append _),
    h.2.2.2.2.2.2.2.2⟩

/-- C8: constructing an image from an ordered nonempty list of PRG files
(each at least 2 bytes, with no 16-bit overflow of `start + (L - 2)` and a
total size below 2^32) sets `record_used = record_max = N`; each file's
record takes `start_addr` from its first two bytes little-endian,
`end_addr = start_addr + (L - 2)`, `real_end_addr = end_addr`, and its
`data_offset` is the running append position right after the header and
the N*32-byte directory, where the file's `L - 2` data bytes are packed
contiguously; and re-running the verify engine on the freshly created
image yields zero fixes. -/
theorem t64_create_spec (tapename : List Nat) (files : List prg_file_t)
    (hne : files ≠ [])
    (hn : files.length < U16)
    (hfile : ∀ f ∈ files, 2 ≤ f.bytes.length
      ∧ get_uint16 f.bytes 0 + (f.bytes.length - 2) < U16)
    (hsz : 0x40 + files.length * 0x20 + create_data_size files < 4294967296) :
    (t64_create tapename files).rec_used = files.length
    ∧ (t64_create tapename files).rec_max = files.length
    ∧ (t64_create tapename files).size
        = 0x40 + files.length * 0x20 + create_data_size files
    ∧ (t64_create tapename files).data
        = List.replicate (0x40 + files.length * 0x20) 0
          ++ (files.map (fun f => f.bytes.drop 2)).flatten
    ∧ (∀ i, i < files.length →
        ((t64_create tapename files).records.getD i blank_record).offset
            = 0x40 + files.length * 0x20 + create_data_size (files.take i)
        ∧ ((t64_create tapename files).records.getD i blank_record).start_addr
            = get_uint16 (files.getD i blank_prg).bytes 0
        ∧ ((t64_create tapename files).records.getD i blank_record).end_addr
            = get_uint16 (files.getD i blank_prg).bytes 0
              + ((files.getD i blank_prg).bytes.length - 2)
        ∧ ((t64_create tapename files).records.getD i blank_record).real_end_addr
            = ((t64_create tapename files).records.getD i blank_record).end_addr)
    ∧ (t64_verify (t64_create tapename files)).fixes = 0 := by
  obtain ⟨hused, hmax, hsize, hdata, hrecs, hfix⟩ := t64_create_fields tapename files
  have hlen0 : 0 < files.length := List.length_pos.mpr hne
  have hmodn : files.length % U16 = files.length := Nat.mod_eq_of_lt hn
  refine ⟨hused.trans hmodn, hmax.trans hmodn, hsize, hdata, ?_, ?_⟩
  · intro i hi
    have hget := t64_create_records_getD files (0x40 + files.length * 0x20) i hi
    have hmem : files.getD i blank_prg ∈ files := by
      rw [List.getD_eq_getElem _ _ hi]
      exact List.getElem_mem hi
    obtain ⟨hf2, hfnw⟩ := hfile _ hmem
    have htake := create_data_size_take_le files i
    rw [hrecs, hget]
    refine ⟨?_, rfl, ?_, rfl⟩
    · show (0x40 + files.length * 0x20 + create_data_size (files.take i)) % 4294967296 = _
      exact Nat.mod_eq_of_lt (by omega)
    · show ((files.getD i blank_prg).bytes.length - 2
          + get_uint16 (files.getD i blank_prg).bytes 0) % U16 = _
      rw [U16_eq] at hfnw ⊢
      rw [Nat.mod_eq_of_lt (by omega)]
      omega
  · have hmaxne : (t64_create tapename files).rec_max ≠ 0 := by
      rw [hmax, hmodn]
      omega
    have husedne : (t64_create tapename files).rec_used ≠ 0 := by
      rw [hused, hmodn]
      omega
    have hnoop := t64_verify_header_of_pos _ hmaxne husedne
    have e : (t64_verify (t64_create tapename files)).fixes
        = (t64_verify_records (t64_verify_header (t64_create tapename files)).size
            (List.insertionSort compar_offset_le
              (t64_verify_header (t64_create tapename files)).records)
            (t64_verify_header (t64_create tapename files)).fixes).2 := rfl
    rw [e, hnoop, hrecs, hsize, hfix]
    rw [List.Sorted.insertionSort_eq
      (t64_create_records_sorted files (0x40 + files.length * 0x20) (by omega))]
    rw [t64_create_records_verify files (0x40 + files.length * 0x20) 0
      (0x40 + files.length * 0x20 + create_data_size files) rfl hsz hfile]

/-- The two PRG inputs of the create round-trip test: 100 and 200 bytes
including their 2-byte load addresses. -/
def createWitnessFiles : List prg_file_t :=
  [⟨[65, 66], 0x00 :: 0x10 :: List.replicate 98 0x41⟩,
   ⟨[67, 68], 0x00 :: 0x20 :: List.replicate 198 0x42⟩]

set_option maxRecDepth 40000 in
/-- Witness for `t64_create_spec`: two PRG files of 100 and 200 bytes give
`record_used = record_max = 2`, total size 0x40 + 2*0x20 + 98 + 198 = 424,
correct per-record addresses, and re-verification applies zero fixes. -/
theorem t64_create_spec_witness :
    (t64_create [84] createWitnessFiles).rec_used = 2
    ∧ (t64_create [84] createWitnessFiles).size = 424
    ∧ ((t64_create [84] createWitnessFiles).records.getD 1 blank_record).offset = 226
    ∧ ((t64_create [84] createWitnessFiles).records.getD 1 blank_record).end_addr = 0x2000 + 198
    ∧ (t64_verify (t64_create [84] createWitnessFiles)).fixes = 0 := by
  have h := t64_create_spec [84] createWitnessFiles (by decide) (by decide)
    (by decide) (by decide)
  obtain ⟨h1, _, h3, _, h5, h6⟩ := h
  obtain ⟨ho, _, he, _⟩ := h5 1 (by decide)
  refine ⟨?_, ?_, ?_, ?_, h6⟩
  · rw [h1]
    decide
  · rw [h3]
    decide
  · rw [ho]
    decide
  · rw [he]
    decide
